import Mathlib

/-!
Verification development for the XRPL date-to-ledger-index cache scripts.

The repository resolves "which ledger index corresponds to time T" against a
source answering only point queries (close time by index, and latest validated
index), memoizing results in a document with `daily` and `hourly` anchor maps.

Shallow embedding conventions:
* instants are integer UTC seconds (`Int`); calendar dates are floor-days
  (`t.fdiv 86400`) and hour keys are floor-hours, matching the scripts'
  `strftime`/`replace` key derivations for UTC datetimes;
* the time-indexed source is a function `close : Int → Int` (ledger index to
  close time) together with `latestIndex : Int`, the latest validated index
  whose close time is `close latestIndex`;
* Python `int(x / 4)` (truncation toward zero) is `Int.div`, Python `//`
  (floor) is `Int.fdiv`;
* the mappings held in memory are association lists; `List.lookup` models
  `dict` membership/access (keys are unique in every run considered);
* exceptions become an error type `ResolveErr`; both resolvers additionally
  return the list of by-index queries they issued, in order, so that claims
  about what gets queried are statable.
-/

namespace XrplDateCache

/-- Genesis ledger index of the XRPL; `GENESIS_INDEX` in both scripts. -/
def GENESIS_INDEX : Int := 32570

/-- Error outcomes of the resolvers: `FutureLedgerError`, the bracket
`RuntimeError`, and the post-search invariant `RuntimeError` of
`find_ledger_between`. -/
inductive ResolveErr where
  | future
  | bracket
  | invariant
deriving DecidableEq, Repr

/-- An anchor: a (ledger_index, close_time) pair. -/
abbrev Anchor := Int × Int

/-! ### Strategy A: `get_ledger_index_by_date` (append_rough_ledger_cache_r2.py) -/

/-- Clamp of the corrected guess: `if guess_index < 1: guess_index = 1`. -/
def clamp1 (g : Int) : Int := if g < 1 then 1 else g

/-- The `for i in range(max_iter)` loop of `get_ledger_index_by_date`.
Arguments: remaining iterations, current `guess_index`, current `close_time`
(initially the latest close time, the fallback).  Returns the returned
`(guess_index, close_time)` pair and the list of ledger indices queried. -/
def iterGuessLoop (close : Int → Int) (dt : Int) : Nat → Int → Int → (Int × Int) × List Int
  | 0, guess, ct => ((guess, ct), [])
  | fuel + 1, guess, _ =>
    let ct := close guess
    let diff := ct - dt
    if (ct - dt).natAbs < 3600 then ((guess, ct), [guess])
    else
      let r := iterGuessLoop close dt fuel (clamp1 (guess - diff.tdiv 4)) ct
      (r.1, guess :: r.2)

/-- `get_ledger_index_by_date(dt, max_iter)`: future check against the latest
close time, initial guess at 4 seconds per ledger, then the correction loop.
Returns the result (or `FutureLedgerError`) together with the by-index query
trace. -/
def getLedgerIndexByDate (close : Int → Int) (latestIndex dt : Int) (maxIter : Nat) :
    Except ResolveErr (Int × Int) × List Int :=
  let latestTime := close latestIndex
  if dt > latestTime then (.error .future, [])
  else
    let delta := latestTime - dt
    let guess := latestIndex - delta.tdiv 4
    let r := iterGuessLoop close dt maxIter guess latestTime
    (.ok r.1, r.2)

/-! ### Strategy B: `find_ledger_between` (refine_hourly_ledger_cache_r2.py) -/

/-- The `while lo_index + 1 < hi_index` binary-search loop of
`find_ledger_between`.  The fuel is an upper bound on the number of
iterations (the gap shrinks each time, so `hi - lo` always suffices).
Returns the final `(hi_index, hi_time)` and the midpoints queried. -/
def binSearchGo (close : Int → Int) (target : Int) : Nat → Int → Int → (Int × Int) × List Int
  | 0, _, hi => ((hi, close hi), [])
  | fuel + 1, lo, hi =>
    if lo + 1 < hi then
      let mid := (lo + hi).fdiv 2
      let midTime := close mid
      let r :=
        if midTime ≥ target then binSearchGo close target fuel lo mid
        else binSearchGo close target fuel mid hi
      (r.1, mid :: r.2)
    else ((hi, close hi), [])

/-- `find_ledger_between(target_dt, lo_index, hi_index)`: future check, clamp
to `[GENESIS_INDEX, latest_index]`, endpoint bracket check, binary search,
final invariant check.  Also returns the by-index query trace (both endpoints,
then the midpoints). -/
def findLedgerBetweenT (close : Int → Int) (latestIndex target loIndex hiIndex : Int) :
    Except ResolveErr (Int × Int) × List Int :=
  let latestTime := close latestIndex
  if target > latestTime then (.error .future, [])
  else
    let lo := max loIndex GENESIS_INDEX
    let hi := min hiIndex latestIndex
    let loTime := close lo
    let hiTime := close hi
    if target < loTime ∨ target > hiTime then (.error .bracket, [lo, hi])
    else
      let r := binSearchGo close target (hi - lo).toNat lo hi
      if r.1.2 < target then (.error .invariant, lo :: hi :: r.2)
      else (.ok r.1, lo :: hi :: r.2)

/-- Result component of `find_ledger_between`. -/
def findLedgerBetween (close : Int → Int) (latestIndex target loIndex hiIndex : Int) :
    Except ResolveErr (Int × Int) :=
  (findLedgerBetweenT close latestIndex target loIndex hiIndex).1

/-! ### Calendar helpers -/

/-- Calendar date of an instant, as a floor-day number (`.date()` on a UTC
datetime). -/
def dateOf (t : Int) : Int := t.fdiv 86400

/-- Truncation of an instant to its hour (`cur.replace(minute=0, second=0,
microsecond=0)`). -/
def hourFloor (t : Int) : Int := t.fdiv 3600 * 3600

/-- Midnight of the next calendar day (`datetime.combine(current_date +
timedelta(days=1), time.min)`). -/
def nextMidnight (t : Int) : Int := (dateOf t + 1) * 86400

/-! ### Hourly refine builder (`refine_hourly_for_range`) -/

/-- Loop state of `refine_hourly_for_range`: current instant, `prev_date`,
the per-day bracket `day_lo_index`/`day_hi_index`, the running
`last_hourly_index` low-water mark, the in-memory `hourly` mapping, and the
`added` counter. -/
structure RefineState where
  cur : Int
  prevDate : Option Int
  dayLo : Option Int
  dayHi : Option Int
  lastHourly : Option Int
  hourly : List (Int × Anchor)
  added : Nat
deriving DecidableEq

/-- Update of `last_hourly_index` from an observed index: `if
last_hourly_index is None or idx > last_hourly_index`. -/
def applyMax (last : Option Int) (idx : Int) : Option Int :=
  match last with
  | none => some idx
  | some l => if idx > l then some idx else some l

/-- Effective lower search bound for one hour: `lo_index = day_lo_index`,
raised to `last_hourly_index` when that is set and larger. -/
def effLo (last : Option Int) (dlo : Int) : Int :=
  match last with
  | none => dlo
  | some l => if l > dlo then l else dlo

/-- Per-day bracket recomputed on a date change: `None` when the day has no
`daily` anchor (the day is skipped wholesale), otherwise (previous day's
daily index or genesis, next day's daily index or today's plus 200000). -/
def dayBounds (daily : Int → Option Anchor) (d : Int) : Option (Int × Int) :=
  match daily d with
  | none => none
  | some todayE =>
    let dlo : Int := match daily (d - 1) with
      | some p => p.1
      | none => GENESIS_INDEX
    let dhi : Int := match daily (d + 1) with
      | some n => n.1
      | none => todayE.1 + 200000
    some (dlo, dhi)

/-- One hour-processing step of the refine loop (the part of the body after
the date-change handling).  `Sum.inl s` means the loop breaks immediately
with state `s` (the `FutureLedgerError` case); `Sum.inr s` means it continues
with state `s`. -/
def hourStep (close : Int → Int) (latestIndex : Int) (st : RefineState) :
    RefineState ⊕ RefineState :=
  let key := hourFloor st.cur
  match st.hourly.lookup key with
  | some ex =>
    .inr { st with lastHourly := applyMax st.lastHourly ex.1, cur := st.cur + 3600 }
  | none =>
    match st.dayLo, st.dayHi with
    | some dlo, some dhi =>
      match findLedgerBetween close latestIndex st.cur (effLo st.lastHourly dlo) dhi with
      | .ok (idx, t) =>
        .inr { st with hourly := (key, (idx, t)) :: st.hourly,
                       added := st.added + 1, lastHourly := some idx,
                       cur := st.cur + 3600 }
      | .error .future => .inl st
      | .error _ => .inr { st with cur := st.cur + 3600 }
    | _, _ => .inr { st with cur := st.cur + 3600 }

/-- The `while cur <= dt_end` loop of `refine_hourly_for_range`.  The fuel
bounds the number of loop iterations (an embedding artifact; every theorem
holds for every fuel, and runs are compared at equal fuel). -/
def refineLoop (close : Int → Int) (latestIndex : Int) (daily : Int → Option Anchor)
    (dtEnd : Int) : Nat → RefineState → RefineState
  | 0, st => st
  | fuel + 1, st =>
    if st.cur > dtEnd then st
    else if st.prevDate = some (dateOf st.cur) then
      match hourStep close latestIndex st with
      | .inl s => s
      | .inr s => refineLoop close latestIndex daily dtEnd fuel s
    else
      match dayBounds daily (dateOf st.cur) with
      | none =>
        refineLoop close latestIndex daily dtEnd fuel
          { st with cur := nextMidnight st.cur, prevDate := some (dateOf st.cur),
                    dayLo := none, dayHi := none }
      | some (dlo, dhi) =>
        match hourStep close latestIndex
            { st with prevDate := some (dateOf st.cur),
                      dayLo := some dlo, dayHi := some dhi } with
        | .inl s => s
        | .inr s => refineLoop close latestIndex daily dtEnd fuel s

/-- Outcome of one refine run: final `hourly` mapping, number of anchors
added, and whether `save_cache` was invoked (`if added > 0`). -/
structure RefineResult where
  hourly : List (Int × Anchor)
  added : Nat
  didSave : Bool
deriving DecidableEq

/-- A full `refine_hourly_for_range` run over `[dtStart, dtEnd]` starting
from the in-memory `hourly` mapping `hourly0`. -/
def refineRun (close : Int → Int) (latestIndex : Int) (daily : Int → Option Anchor)
    (hourly0 : List (Int × Anchor)) (dtStart dtEnd : Int) (fuel : Nat) : RefineResult :=
  let f := refineLoop close latestIndex daily dtEnd fuel
    { cur := dtStart, prevDate := none, dayLo := none, dayHi := none,
      lastHourly := none, hourly := hourly0, added := 0 }
  { hourly := f.hourly, added := f.added, didSave := decide (0 < f.added) }

/-! ### Daily append builder (`append_rough_ledger_cache`) -/

/-- Loop state of `append_rough_ledger_cache`: current instant, in-memory
`daily` mapping keyed by floor-day, and the `added` counter. -/
structure AppendState where
  cur : Int
  daily : List (Int × Anchor)
  added : Nat
deriving DecidableEq

/-- The `while cur <= dt_end` loop of `append_rough_ledger_cache`: skip
existing days, otherwise resolve via Strategy A; `FutureLedgerError` breaks
the whole remaining range. -/
def appendLoop (close : Int → Int) (latestIndex : Int) (dtEnd : Int) :
    Nat → AppendState → AppendState
  | 0, st => st
  | fuel + 1, st =>
    if st.cur > dtEnd then st
    else
      let dk := dateOf st.cur
      match st.daily.lookup dk with
      | some _ =>
        appendLoop close latestIndex dtEnd fuel { st with cur := st.cur + 86400 }
      | none =>
        match (getLedgerIndexByDate close latestIndex st.cur 5).1 with
        | .ok (idx, t) =>
          appendLoop close latestIndex dtEnd fuel
            { st with daily := (dk, (idx, t)) :: st.daily,
                      added := st.added + 1, cur := st.cur + 86400 }
        | .error .future => st
        | .error _ =>
          appendLoop close latestIndex dtEnd fuel { st with cur := st.cur + 86400 }

/-- Outcome of one daily append run. -/
structure AppendResult where
  daily : List (Int × Anchor)
  added : Nat
  didSave : Bool
deriving DecidableEq

/-- A full `append_rough_ledger_cache` run over `[dtStart, dtEnd]`. -/
def appendRun (close : Int → Int) (latestIndex : Int) (daily0 : List (Int × Anchor))
    (dtStart dtEnd : Int) (fuel : Nat) : AppendResult :=
  let f := appendLoop close latestIndex dtEnd fuel
    { cur := dtStart, daily := daily0, added := 0 }
  { daily := f.daily, added := f.added, didSave := decide (0 < f.added) }

/-! ### Clio hourly builder (`generate_hourly_for_range`, local variant) -/

/-- Outcome of one `clio_ledger_index` call: an anchor, the `lgrNotFound`
signal (`None`), or any other failure (the caught exception path). -/
inductive ClioRes where
  | found (a : Anchor)
  | notFound
  | err
deriving DecidableEq

/-- Loop state of the local `generate_hourly_for_range`: current instant,
`prev_date`, in-memory `hourly` keyed by the full instant, the `added`
counter, and the `hourly` contents written by each mid-run
(day-boundary) `save_cache` call, in order. -/
structure GenState where
  cur : Int
  prevDate : Option Int
  hourly : List (Int × Anchor)
  added : Nat
  saves : List (List (Int × Anchor))
deriving DecidableEq

/-- The date-change prologue of each loop iteration: on the first iteration
just set `prev_date`; afterwards, when the calendar date changed, save the
current document (record its `hourly`) and set `prev_date`. -/
def dayBoundarySave (st : GenState) : GenState :=
  match st.prevDate with
  | none => { st with prevDate := some (dateOf st.cur) }
  | some p =>
    if p = dateOf st.cur then st
    else { st with prevDate := some (dateOf st.cur), saves := st.saves ++ [st.hourly] }

/-- The `while cur <= effective_end` loop of the local
`generate_hourly_for_range`: on each date change after the first, save; skip
existing hours; otherwise query Clio (`None` breaks, errors skip). -/
def genLoop (clio : Int → ClioRes) (effEnd : Int) : Nat → GenState → GenState
  | 0, st => st
  | fuel + 1, st =>
    if st.cur > effEnd then st
    else
      let st1 := dayBoundarySave st
      match st1.hourly.lookup st1.cur with
      | some _ => genLoop clio effEnd fuel { st1 with cur := st1.cur + 3600 }
      | none =>
        match clio st1.cur with
        | .notFound => st1
        | .found a =>
          genLoop clio effEnd fuel
            { st1 with hourly := (st1.cur, a) :: st1.hourly,
                       added := st1.added + 1, cur := st1.cur + 3600 }
        | .err => genLoop clio effEnd fuel { st1 with cur := st1.cur + 3600 }

/-- Outcome of one local Clio generate run: final `hourly`, additions, the
mid-run day-boundary saves (their `hourly` contents), and whether the final
`if added > 0` save fired. -/
structure GenResult where
  hourly : List (Int × Anchor)
  added : Nat
  saves : List (List (Int × Anchor))
  didFinalSave : Bool
deriving DecidableEq

/-- A full local `generate_hourly_for_range` run: `effective_end =
min(dt_end, now)`, the `total_hours < 1` early return, the loop, and the
final conditional save. -/
def genRun (clio : Int → ClioRes) (hourly0 : List (Int × Anchor))
    (dtStart dtEnd now : Int) (fuel : Nat) : GenResult :=
  let effEnd := min dtEnd now
  if (effEnd - dtStart).fdiv 3600 + 1 < 1 then
    { hourly := hourly0, added := 0, saves := [], didFinalSave := false }
  else
    let f := genLoop clio effEnd fuel
      { cur := dtStart, prevDate := none, hourly := hourly0, added := 0, saves := [] }
    { hourly := f.hourly, added := f.added, saves := f.saves,
      didFinalSave := decide (0 < f.added) }

/-! ### Cache store: migration, year inference, sorted persistence -/

/-- Python `re.match(r"^\d{4}-\d{2}-\d{2}$", k)` as a Boolean predicate on
the key (ASCII digits; `$` also matches just before one trailing newline,
as in Python). -/
def matchesDateKey (s : String) : Bool :=
  match s.data with
  | [y1, y2, y3, y4, h1, m1, m2, h2, d1, d2] =>
    y1.isDigit && y2.isDigit && y3.isDigit && y4.isDigit && h1 == '-' &&
      m1.isDigit && m2.isDigit && h2 == '-' && d1.isDigit && d2.isDigit
  | [y1, y2, y3, y4, h1, m1, m2, h2, d1, d2, nl] =>
    y1.isDigit && y2.isDigit && y3.isDigit && y4.isDigit && h1 == '-' &&
      m1.isDigit && m2.isDigit && h2 == '-' && d1.isDigit && d2.isDigit && nl == '\n'
  | _ => false

/-- `os.path.basename` on a POSIX path: the part after the last `/`. -/
def baseName (s : String) : String :=
  ((s.split (fun c => c == '/')).getLast?).getD ""

/-- Numeric value of an ASCII digit character. -/
def digitVal (c : Char) : Nat := c.toNat - 48

/-- Leftmost window of four consecutive ASCII digits in a character list,
as a number: `re.search(r"(\d{4})", ...)` followed by `int`. -/
def firstYearNum : List Char → Option Nat
  | a :: b :: c :: d :: rest =>
    if a.isDigit && b.isDigit && c.isDigit && d.isDigit then
      some (1000 * digitVal a + 100 * digitVal b + 10 * digitVal c + digitVal d)
    else firstYearNum (b :: c :: d :: rest)
  | _ => none

/-- `infer_year_from_path` / `infer_year_from_key`: first 4-digit run of the
basename, if any. -/
def inferYearFromPath (path : String) : Option Nat :=
  firstYearNum (baseName path).data

/-- The `meta` object of a cache document. -/
structure Meta where
  year : Nat
  version : Nat
deriving DecidableEq

/-- A current-format cache document with anchor payloads of type `α`;
`daily`/`hourly` are insertion-ordered association lists, as Python dicts. -/
structure CacheDoc (α : Type) where
  meta : Meta
  daily : List (String × α)
  hourly : List (String × α)
deriving DecidableEq

/-- `make_empty_cache(path, dt_hint)` at a given format version: year
inferred from the path, else the hint's year, else 0. -/
def mkEmptyCache (α : Type) (version : Nat) (path : String) (hint : Option Nat) :
    CacheDoc α :=
  { meta := { year := (inferYearFromPath path).getD (hint.getD 0),
              version := version },
    daily := [], hourly := [] }

/-- Python dict assignment `m[k] = v`: overwrite in place if the key exists,
else append at the end. -/
def dinsert (m : List (String × α)) (k : String) (v : α) : List (String × α) :=
  if (m.lookup k).isSome then m.map (fun p => if p.1 == k then (k, v) else p)
  else m ++ [(k, v)]

/-- `migrate_old_flat_format(old, path)`: fresh empty cache (version 1),
then every old top-level entry whose key matches the date pattern is copied
into `daily`. -/
def migrateOldFlatFormat (old : List (String × α)) (path : String) : CacheDoc α :=
  { mkEmptyCache α 1 path none with
    daily := old.foldl
      (fun acc kv => if matchesDateKey kv.1 then dinsert acc kv.1 kv.2 else acc) [] }

/-- Reordering of a mapping by sorted keys: `{k: m[k] for k in
sorted(m.keys())}`. -/
def sortPairs (m : List (String × α)) : List (String × α) :=
  (List.insertionSort (fun a b => a ≤ b) (m.map Prod.fst)).filterMap
    (fun k => (m.lookup k).map (fun v => (k, v)))

/-- `save_cache`: the document written back — same `meta`, `daily` and
`hourly` reordered by ascending key. -/
def saveCache (c : CacheDoc α) : CacheDoc α :=
  { meta := c.meta, daily := sortPairs c.daily, hourly := sortPairs c.hourly }

/-! ### Stored-document shapes and the two `load_cache` discriminants -/

/-- A stored JSON value, as far as the load paths inspect it. -/
inductive JVal where
  | obj (fields : List (String × JVal))
  | num (n : Nat)
  | str (s : String)
  | other

/-- Top-level date-keyed entries of a stored value, collected in iteration
order by Python-dict insertion (the shared migration loop body). -/
def flatDaily (raw : JVal) : List (String × JVal) :=
  match raw with
  | .obj fields =>
    fields.foldl
      (fun acc kv => if matchesDateKey kv.1 then dinsert acc kv.1 kv.2 else acc) []
  | _ => []

/-- The migrated document built by the Clio variants' legacy branch
(`make_empty_cache` at version 2, then the date-key filter into `daily`). -/
def clioMigrate (raw : JVal) (path : String) : JVal :=
  .obj [("meta", .obj [("year", .num ((inferYearFromPath path).getD 0)),
                       ("version", .num 2)]),
        ("daily", .obj (flatDaily raw)),
        ("hourly", .obj [])]

/-- `load_cache` of the Clio variants on an existing stored value: accepted
as current format iff it is an object with both `meta` and `hourly` keys;
otherwise re-migrated as legacy flat. -/
def clioLoadStored (raw : JVal) (path : String) : JVal :=
  match raw with
  | .obj fields =>
    if ((fields.lookup "meta").isSome && (fields.lookup "hourly").isSome : Bool) then
      .obj fields
    else clioMigrate (.obj fields) path
  | r => clioMigrate r path

/-- The migrated document built by `migrate_old_flat_format` at the stored
level (version 1); `none` models the `AttributeError` on a non-dict. -/
def appendMigrateJ (raw : JVal) (path : String) : Option JVal :=
  match raw with
  | .obj fields =>
    some (.obj [("meta", .obj [("year", .num ((inferYearFromPath path).getD 0)),
                               ("version", .num 1)]),
                ("daily", .obj (fields.foldl
                  (fun acc kv => if matchesDateKey kv.1 then dinsert acc kv.1 kv.2 else acc) [])),
                ("hourly", .obj [])])
  | _ => none

/-- `load_cache` of `append_rough_ledger_cache_r2.py` on an existing stored
value: accepted as current format iff it is an object with both `meta` and
`daily` keys (then `hourly` is defaulted via `setdefault`); otherwise
migrated as legacy flat. -/
def appendLoadStored (raw : JVal) (key : String) : Option JVal :=
  match raw with
  | .obj fields =>
    if ((fields.lookup "meta").isSome && (fields.lookup "daily").isSome : Bool) then
      if (fields.lookup "hourly").isSome then some (.obj fields)
      else some (.obj (fields ++ [("hourly", .obj [])]))
    else appendMigrateJ (.obj fields) key
  | r => appendMigrateJ r key

/-! ### Concrete instances used in counterexamples and witnesses -/

/-- A strictly increasing close-time source used as a concrete test source:
slope 2 below index 45000, slope 40 above.  Its latest validated index in the
scenarios below is 50000, closing at 216000. -/
def cexClose (i : Int) : Int :=
  if i < 45000 then 2 * i - 300000 else 40 * (i - 45000) + 16000

/-- A Clio source answering every instant `t` with the anchor `(t, t)`. -/
def clioCex : Int → ClioRes := fun t => .found (t, t)

/-- An identity-like source: ledger `i` closes at time `i`. -/
def idClose : Int → Int := fun i => i

/-- A daily table for the refine-run witness: day `d` (for `0 ≤ d ≤ 2`) has
its rough anchor at index `86400 * d + 5000` closing at that same time. -/
def dailyW : Int → Option Anchor := fun d =>
  if 0 ≤ d ∧ d ≤ 2 then some (86400 * d + 5000, 86400 * d + 5000) else none

/-! ### Helper lemmas: binary search -/

theorem binSearchGo_spec (close : Int → Int) (target : Int) :
    ∀ (fuel : Nat) (lo hi : Int), lo < hi → (hi - lo).toNat ≤ fuel →
      close lo < target → target ≤ close hi →
      ((binSearchGo close target fuel lo hi).1.2 =
          close (binSearchGo close target fuel lo hi).1.1 ∧
        lo < (binSearchGo close target fuel lo hi).1.1 ∧
        (binSearchGo close target fuel lo hi).1.1 ≤ hi ∧
        target ≤ close (binSearchGo close target fuel lo hi).1.1 ∧
        close ((binSearchGo close target fuel lo hi).1.1 - 1) < target) := by
  intro fuel
  induction fuel with
  | zero => intro lo hi h1 h2 _ _; exact absurd h2 (by omega)
  | succ fuel ih =>
    intro lo hi h1 h2 h3 h4
    by_cases hlt : lo + 1 < hi
    · have hmid : lo + 1 ≤ (lo + hi).fdiv 2 ∧ (lo + hi).fdiv 2 ≤ hi - 1 := by
        rw [Int.fdiv_eq_ediv _ (by norm_num)]; omega
      by_cases hge : close ((lo + hi).fdiv 2) ≥ target
      · have heq : (binSearchGo close target (fuel + 1) lo hi).1 =
            (binSearchGo close target fuel lo ((lo + hi).fdiv 2)).1 := by
          simp [binSearchGo, if_pos hlt, if_pos hge]
        rw [heq]
        obtain ⟨ha, hb, hc, hd, he⟩ :=
          ih lo ((lo + hi).fdiv 2) (by omega) (by omega) h3 hge
        exact ⟨ha, hb, by omega, hd, he⟩
      · have hlt2 : close ((lo + hi).fdiv 2) < target := lt_of_not_le hge
        have heq : (binSearchGo close target (fuel + 1) lo hi).1 =
            (binSearchGo close target fuel ((lo + hi).fdiv 2) hi).1 := by
          simp [binSearchGo, if_pos hlt, if_neg hge]
        rw [heq]
        obtain ⟨ha, hb, hc, hd, he⟩ :=
          ih ((lo + hi).fdiv 2) hi (by omega) (by omega) hlt2 h4
        exact ⟨ha, by omega, hc, hd, he⟩
    · have hhi : hi = lo + 1 := by omega
      subst hhi
      have heq : (binSearchGo close target (fuel + 1) lo (lo + 1)).1 =
          (lo + 1, close (lo + 1)) := by
        simp [binSearchGo, if_neg hlt]
      rw [heq]
      exact ⟨rfl, by omega, le_refl _, h4, by simpa using h3⟩

/-! ### Helper lemmas: one refine hour step -/

/-- Exhaustive description of `hourStep`'s behavior by case. -/
theorem hourStep_cases (close : Int → Int) (li : Int) (st : RefineState) :
    (∃ ex, st.hourly.lookup (hourFloor st.cur) = some ex ∧
      hourStep close li st =
        .inr { st with lastHourly := applyMax st.lastHourly ex.1,
                       cur := st.cur + 3600 }) ∨
    (st.hourly.lookup (hourFloor st.cur) = none ∧
      ∃ dlo dhi, st.dayLo = some dlo ∧ st.dayHi = some dhi ∧
        ((∃ idx t,
            findLedgerBetween close li st.cur (effLo st.lastHourly dlo) dhi = .ok (idx, t) ∧
            hourStep close li st =
              .inr { st with hourly := (hourFloor st.cur, (idx, t)) :: st.hourly,
                             added := st.added + 1, lastHourly := some idx,
                             cur := st.cur + 3600 }) ∨
         (findLedgerBetween close li st.cur (effLo st.lastHourly dlo) dhi = .error .future ∧
            hourStep close li st = .inl st) ∨
         (∃ e, findLedgerBetween close li st.cur (effLo st.lastHourly dlo) dhi = .error e ∧
            e ≠ .future ∧
            hourStep close li st = .inr { st with cur := st.cur + 3600 }))) ∨
    (st.hourly.lookup (hourFloor st.cur) = none ∧ (st.dayLo = none ∨ st.dayHi = none) ∧
      hourStep close li st = .inr { st with cur := st.cur + 3600 }) := by
  cases hlk : st.hourly.lookup (hourFloor st.cur) with
  | some ex =>
    exact Or.inl ⟨ex, rfl, by simp [hourStep, hlk]⟩
  | none =>
    cases hdlo : st.dayLo with
    | none =>
      exact Or.inr (Or.inr ⟨rfl, Or.inl rfl, by simp [hourStep, hlk, hdlo]⟩)
    | some dlo =>
      cases hdhi : st.dayHi with
      | none =>
        exact Or.inr (Or.inr ⟨rfl, Or.inr rfl, by simp [hourStep, hlk, hdlo, hdhi]⟩)
      | some dhi =>
        refine Or.inr (Or.inl ⟨rfl, dlo, dhi, rfl, rfl, ?_⟩)
        cases hfd : findLedgerBetween close li st.cur (effLo st.lastHourly dlo) dhi with
        | ok v =>
          obtain ⟨idx, t⟩ := v
          exact Or.inl ⟨idx, t, rfl, by simp [hourStep, hlk, hdlo, hdhi, hfd]⟩
        | error e =>
          cases e with
          | future =>
            exact Or.inr (Or.inl ⟨rfl, by simp [hourStep, hlk, hdlo, hdhi, hfd]⟩)
          | bracket =>
            exact Or.inr (Or.inr ⟨.bracket, rfl, by simp,
              by simp [hourStep, hlk, hdlo, hdhi, hfd]⟩)
          | invariant =>
            exact Or.inr (Or.inr ⟨.invariant, rfl, by simp,
              by simp [hourStep, hlk, hdlo, hdhi, hfd]⟩)

theorem hourStep_inl_eq (close : Int → Int) (li : Int) (st s : RefineState)
    (h : hourStep close li st = .inl s) : s = st := by
  rcases hourStep_cases close li st with ⟨ex, _, hstep⟩ |
    ⟨_, dlo, dhi, _, _, ⟨idx, t, _, hstep⟩ | ⟨_, hstep⟩ | ⟨e, _, _, hstep⟩⟩ |
    ⟨_, _, hstep⟩ <;> rw [hstep] at h <;> first
      | (cases h; rfl)
      | exact absurd h (by simp)

theorem hourStep_inr_cases (close : Int → Int) (li : Int) (st s : RefineState)
    (h : hourStep close li st = .inr s) :
    s.cur = st.cur + 3600 ∧
    (s.hourly = st.hourly ∨
      ∃ a, st.hourly.lookup (hourFloor st.cur) = none ∧
        s.hourly = (hourFloor st.cur, a) :: st.hourly) := by
  rcases hourStep_cases close li st with ⟨ex, hlk, hstep⟩ |
    ⟨hlk, dlo, dhi, _, _, ⟨idx, t, _, hstep⟩ | ⟨_, hstep⟩ | ⟨e, _, _, hstep⟩⟩ |
    ⟨hlk, _, hstep⟩ <;> rw [hstep] at h
  · cases h; exact ⟨rfl, Or.inl rfl⟩
  · cases h; exact ⟨rfl, Or.inr ⟨(idx, t), hlk, rfl⟩⟩
  · exact absurd h (by simp)
  · cases h; exact ⟨rfl, Or.inl rfl⟩
  · cases h; exact ⟨rfl, Or.inl rfl⟩

/-! ### Helper lemmas: the refine loop never overwrites, and only adds
keys at or after the current hour -/

theorem refineLoop_lookup_mono (close : Int → Int) (li : Int)
    (daily : Int → Option Anchor) (dtEnd : Int) :
    ∀ (fuel : Nat) (st : RefineState) (k : Int) (v : Anchor),
      st.hourly.lookup k = some v →
      (refineLoop close li daily dtEnd fuel st).hourly.lookup k = some v := by
  intro fuel
  induction fuel with
  | zero => intro st k v h; simpa [refineLoop] using h
  | succ fuel ih =>
    intro st k v h
    simp only [refineLoop]
    split
    · exact h
    · have step : ∀ t : RefineState, t.hourly = st.hourly → t.cur = st.cur →
          (match hourStep close li t with
            | .inl s => s
            | .inr s => refineLoop close li daily dtEnd fuel s).hourly.lookup k = some v := by
        intro t ht htc
        cases hhs : hourStep close li t with
        | inl s =>
          have := hourStep_inl_eq _ _ _ _ hhs
          subst this
          simpa [ht] using h
        | inr s =>
          obtain ⟨-, hc⟩ := hourStep_inr_cases _ _ _ _ hhs
          apply ih
          rcases hc with he | ⟨a, hnone, he⟩
          · rw [he, ht]; exact h
          · rw [ht] at hnone
            have hne : (hourFloor t.cur) ≠ k := by
              intro hk; rw [hk, h] at hnone; cases hnone
            rw [he, ht, List.lookup_cons]
            simp only [beq_eq_false_iff_ne.mpr (fun hk => hne hk.symm)]
            exact h
      split
      · exact step st rfl rfl
      · split
        · exact ih _ _ _ h
        · exact step _ rfl rfl

theorem refineLoop_new_keys (close : Int → Int) (li : Int)
    (daily : Int → Option Anchor) (dtEnd : Int) :
    ∀ (fuel : Nat) (st : RefineState) (k : Int),
      ((refineLoop close li daily dtEnd fuel st).hourly.lookup k).isSome →
      (st.hourly.lookup k).isSome ∨ hourFloor st.cur ≤ k := by
  intro fuel
  induction fuel with
  | zero => intro st k h; left; simpa [refineLoop] using h
  | succ fuel ih =>
    intro st k h
    simp only [refineLoop] at h
    split at h
    · exact Or.inl h
    · rename_i hcur
      have hstep : ∀ t : RefineState,
          (((match hourStep close li t with
            | .inl s => s
            | .inr s => refineLoop close li daily dtEnd fuel s) :
              RefineState).hourly.lookup k).isSome →
          t.hourly = st.hourly → t.cur = st.cur →
          (st.hourly.lookup k).isSome ∨ hourFloor st.cur ≤ k := by
        intro t hh ht htc
        cases hhs : hourStep close li t with
        | inl s =>
          rw [hhs] at hh
          have := hourStep_inl_eq _ _ _ _ hhs
          subst this
          left; simpa [ht] using hh
        | inr s =>
          rw [hhs] at hh
          obtain ⟨hcur2, hc⟩ := hourStep_inr_cases _ _ _ _ hhs
          have hrec := ih s k hh
          have hcmono : hourFloor st.cur ≤ hourFloor s.cur := by
            rw [hcur2, htc]
            unfold hourFloor
            rw [Int.fdiv_eq_ediv _ (by norm_num), Int.fdiv_eq_ediv _ (by norm_num)]
            omega
          rcases hrec with hs | hb
          · rcases hc with he | ⟨a, hnone, he⟩
            · left; rwa [he, ht] at hs
            · rw [he] at hs
              rw [List.lookup_cons] at hs
              by_cases hk : k = hourFloor t.cur
              · right; rw [htc] at hk; omega
              · left
                rw [show ((k == hourFloor t.cur) = false) from
                  beq_eq_false_iff_ne.mpr hk] at hs
                rwa [ht] at hs
          · right; omega
      split at h
      · exact hstep st h rfl rfl
      · split at h
        · rcases ih _ _ h with hs | hb
          · exact Or.inl hs
          · right
            have : st.cur ≤ nextMidnight st.cur := by
              unfold nextMidnight dateOf
              rw [Int.fdiv_eq_ediv _ (by norm_num)]
              omega
            have : hourFloor st.cur ≤ hourFloor (nextMidnight st.cur) := by
              unfold hourFloor
              rw [Int.fdiv_eq_ediv _ (by norm_num), Int.fdiv_eq_ediv _ (by norm_num)]
              unfold nextMidnight dateOf at this ⊢
              rw [Int.fdiv_eq_ediv _ (by norm_num)] at this ⊢
              omega
            simpa using le_trans this hb
        · exact hstep _ h rfl rfl

/-! ### Branch equations for the refine loop -/

theorem refineLoop_stop (close : Int → Int) (li : Int) (daily : Int → Option Anchor)
    (dtEnd : Int) (fuel : Nat) (st : RefineState) (h : dtEnd < st.cur) :
    refineLoop close li daily dtEnd (fuel + 1) st = st := by
  simp [refineLoop, if_pos h]

theorem refineLoop_same_day (close : Int → Int) (li : Int) (daily : Int → Option Anchor)
    (dtEnd : Int) (fuel : Nat) (st : RefineState)
    (h1 : ¬ st.cur > dtEnd) (h2 : st.prevDate = some (dateOf st.cur)) :
    refineLoop close li daily dtEnd (fuel + 1) st =
      (match hourStep close li st with
        | .inl s => s
        | .inr s => refineLoop close li daily dtEnd fuel s) := by
  simp [refineLoop, if_neg h1, if_pos h2]

theorem refineLoop_new_day_none (close : Int → Int) (li : Int)
    (daily : Int → Option Anchor) (dtEnd : Int) (fuel : Nat) (st : RefineState)
    (h1 : ¬ st.cur > dtEnd) (h2 : ¬ st.prevDate = some (dateOf st.cur))
    (h3 : dayBounds daily (dateOf st.cur) = none) :
    refineLoop close li daily dtEnd (fuel + 1) st =
      refineLoop close li daily dtEnd fuel
        { st with cur := nextMidnight st.cur, prevDate := some (dateOf st.cur),
                  dayLo := none, dayHi := none } := by
  simp [refineLoop, if_neg h1, if_neg h2, h3]

theorem refineLoop_new_day_some (close : Int → Int) (li : Int)
    (daily : Int → Option Anchor) (dtEnd : Int) (fuel : Nat) (st : RefineState)
    (dlo dhi : Int)
    (h1 : ¬ st.cur > dtEnd) (h2 : ¬ st.prevDate = some (dateOf st.cur))
    (h3 : dayBounds daily (dateOf st.cur) = some (dlo, dhi)) :
    refineLoop close li daily dtEnd (fuel + 1) st =
      (match hourStep close li
          { st with prevDate := some (dateOf st.cur),
                    dayLo := some dlo, dayHi := some dhi } with
        | .inl s => s
        | .inr s => refineLoop close li daily dtEnd fuel s) := by
  simp [refineLoop, if_neg h1, if_neg h2, h3]

/-! ### Arithmetic helpers about calendar flooring -/

theorem hourFloor_add_hour (t : Int) : hourFloor (t + 3600) = hourFloor t + 3600 := by
  unfold hourFloor
  rw [Int.fdiv_eq_ediv _ (by norm_num), Int.fdiv_eq_ediv _ (by norm_num)]
  omega

theorem hourFloor_le (t : Int) : hourFloor t ≤ t := by
  unfold hourFloor
  rw [Int.fdiv_eq_ediv _ (by norm_num)]
  omega

/-! ### Claim theorems (part 1) -/

/-- C1 (confirmed).  For every call to `find_ledger_between` where the
source's close times are strictly increasing, the target is at most the
latest close time, and the target lies strictly between the clamped
endpoints' close times, the function returns `(i, close i)` for the smallest
ledger index `i` whose close time is at least the target. -/
theorem findLedgerBetween_returns_least_index
    (close : Int → Int) (latestIndex target loIndex hiIndex : Int)
    (hmono : StrictMono close)
    (hfut : target ≤ close latestIndex)
    (hlo : close (max loIndex GENESIS_INDEX) < target)
    (hhi : target < close (min hiIndex latestIndex)) :
    ∃ i, findLedgerBetween close latestIndex target loIndex hiIndex = .ok (i, close i) ∧
      target ≤ close i ∧ ∀ j, j < i → close j < target := by
  have hnofut : ¬ (target > close latestIndex) := not_lt.mpr hfut
  have hlohi : max loIndex GENESIS_INDEX < min hiIndex latestIndex :=
    hmono.lt_iff_lt.mp (lt_trans hlo hhi)
  obtain ⟨ha, hb, hc, hd, he⟩ := binSearchGo_spec close target
    ((min hiIndex latestIndex - max loIndex GENESIS_INDEX).toNat)
    (max loIndex GENESIS_INDEX) (min hiIndex latestIndex) hlohi (le_refl _)
    hlo (le_of_lt hhi)
  have hnob : ¬ (target < close (max loIndex GENESIS_INDEX) ∨
      target > close (min hiIndex latestIndex)) := by
    push_neg
    exact ⟨le_of_lt hlo, le_of_lt hhi⟩
  have hr2 : ¬ ((binSearchGo close target
      ((min hiIndex latestIndex - max loIndex GENESIS_INDEX).toNat)
      (max loIndex GENESIS_INDEX) (min hiIndex latestIndex)).1.2 < target) := by
    rw [ha]
    exact not_lt.mpr hd
  refine ⟨(binSearchGo close target
      ((min hiIndex latestIndex - max loIndex GENESIS_INDEX).toNat)
      (max loIndex GENESIS_INDEX) (min hiIndex latestIndex)).1.1, ?_, hd, ?_⟩
  · unfold findLedgerBetween findLedgerBetweenT
    simp only [if_neg hnofut, if_neg hnob, if_neg hr2]
    rw [show (binSearchGo close target
        ((min hiIndex latestIndex - max loIndex GENESIS_INDEX).toNat)
        (max loIndex GENESIS_INDEX) (min hiIndex latestIndex)).1 =
      ((binSearchGo close target
        ((min hiIndex latestIndex - max loIndex GENESIS_INDEX).toNat)
        (max loIndex GENESIS_INDEX) (min hiIndex latestIndex)).1.1,
       close (binSearchGo close target
        ((min hiIndex latestIndex - max loIndex GENESIS_INDEX).toNat)
        (max loIndex GENESIS_INDEX) (min hiIndex latestIndex)).1.1) from
      Prod.ext_iff.mpr ⟨rfl, ha⟩]
  · intro j hj
    calc close j ≤ close ((binSearchGo close target
        ((min hiIndex latestIndex - max loIndex GENESIS_INDEX).toNat)
        (max loIndex GENESIS_INDEX) (min hiIndex latestIndex)).1.1 - 1) :=
          hmono.monotone (by omega)
    _ < target := he

/-- C2 (confirmed).  For a target instant strictly later than the latest
close time: both resolver strategies return `FutureLedgerError` having issued
no by-index query at all; the refine loop, at an hour due to be searched
whose target is future, stops immediately with its state (hence cache)
unchanged; and the daily append loop does the same at a future day. -/
theorem future_target_stops_both_strategies_and_builders
    (close : Int → Int) (latestIndex : Int) :
    (∀ dt : Int, ∀ maxIter : Nat, close latestIndex < dt →
      getLedgerIndexByDate close latestIndex dt maxIter = (.error .future, [])) ∧
    (∀ target lo hi : Int, close latestIndex < target →
      findLedgerBetweenT close latestIndex target lo hi = (.error .future, [])) ∧
    (∀ (daily : Int → Option Anchor) (dtEnd : Int) (fuel : Nat) (st : RefineState)
        (dlo dhi : Int),
      st.cur ≤ dtEnd → st.prevDate = some (dateOf st.cur) →
      st.dayLo = some dlo → st.dayHi = some dhi →
      st.hourly.lookup (hourFloor st.cur) = none →
      close latestIndex < st.cur →
      refineLoop close latestIndex daily dtEnd (fuel + 1) st = st) ∧
    (∀ (dtEnd : Int) (fuel : Nat) (st : AppendState),
      st.cur ≤ dtEnd → st.daily.lookup (dateOf st.cur) = none →
      close latestIndex < st.cur →
      appendLoop close latestIndex dtEnd (fuel + 1) st = st) := by
  refine ⟨?_, ?_, ?_, ?_⟩
  · intro dt maxIter h
    simp [getLedgerIndexByDate, if_pos h]
  · intro target lo hi h
    simp [findLedgerBetweenT, if_pos h]
  · intro daily dtEnd fuel st dlo dhi hle hpd hdlo hdhi hlk hclt
    have hfd : findLedgerBetween close latestIndex st.cur
        (effLo st.lastHourly dlo) dhi = .error .future := by
      simp [findLedgerBetween, findLedgerBetweenT, if_pos hclt]
    have hhs : hourStep close latestIndex st = .inl st := by
      simp [hourStep, hlk, hdlo, hdhi, hfd]
    rw [refineLoop_same_day close latestIndex daily dtEnd fuel st
      (not_lt.mpr hle) hpd, hhs]
  · intro dtEnd fuel st hle hlk hclt
    have hg : (getLedgerIndexByDate close latestIndex st.cur 5).1 = .error .future := by
      simp [getLedgerIndexByDate, if_pos hclt]
    simp [appendLoop, if_neg (not_lt.mpr hle), hlk, hg]

/-- C3 (confirmed).  Given a non-future target, `find_ledger_between` fails
with the bracket error exactly when the target's instant falls outside the
closed interval of the clamped endpoints' close times; and when the hourly
builder's search for a missing hour fails with any non-future error, that
hour's entry stays unwritten and the loop simply advances to the next hour
with the cache otherwise untouched. -/
theorem bracket_error_iff_outside_and_skips_slot
    (close : Int → Int) (latestIndex : Int) :
    (∀ target lo hi : Int, target ≤ close latestIndex →
      (findLedgerBetween close latestIndex target lo hi = .error .bracket ↔
        (target < close (max lo GENESIS_INDEX) ∨
          close (min hi latestIndex) < target))) ∧
    (∀ (daily : Int → Option Anchor) (dtEnd : Int) (fuel : Nat) (st : RefineState)
        (dlo dhi : Int) (e : ResolveErr),
      st.cur ≤ dtEnd → st.prevDate = some (dateOf st.cur) →
      st.dayLo = some dlo → st.dayHi = some dhi →
      st.hourly.lookup (hourFloor st.cur) = none →
      findLedgerBetween close latestIndex st.cur (effLo st.lastHourly dlo) dhi =
        .error e →
      e ≠ .future →
      (refineLoop close latestIndex daily dtEnd (fuel + 1) st =
        refineLoop close latestIndex daily dtEnd fuel { st with cur := st.cur + 3600 } ∧
       (refineLoop close latestIndex daily dtEnd (fuel + 1) st).hourly.lookup
          (hourFloor st.cur) = none)) := by
  constructor
  · intro target lo hi hfut
    have hnofut : ¬ (target > close latestIndex) := not_lt.mpr hfut
    constructor
    · intro h
      by_contra hout
      push_neg at hout
      have hnob : ¬ (target < close (max lo GENESIS_INDEX) ∨
          target > close (min hi latestIndex)) := by
        push_neg
        exact ⟨hout.1, hout.2⟩
      unfold findLedgerBetween findLedgerBetweenT at h
      simp only [if_neg hnofut, if_neg hnob] at h
      by_cases hinv : (binSearchGo close target
          ((min hi latestIndex - max lo GENESIS_INDEX).toNat)
          (max lo GENESIS_INDEX) (min hi latestIndex)).1.2 < target
      · simp only [if_pos hinv] at h
        exact absurd h (by simp)
      · simp only [if_neg hinv] at h
        exact absurd h (by simp)
    · intro h
      have hb : target < close (max lo GENESIS_INDEX) ∨
          target > close (min hi latestIndex) := by
        rcases h with h | h
        · exact Or.inl h
        · exact Or.inr h
      unfold findLedgerBetween findLedgerBetweenT
      simp only [if_neg hnofut, if_pos hb]
  · intro daily dtEnd fuel st dlo dhi e hle hpd hdlo hdhi hlk hfd hne
    have hhs : hourStep close latestIndex st = .inr { st with cur := st.cur + 3600 } := by
      cases e with
      | future => exact absurd rfl hne
      | bracket => simp [hourStep, hlk, hdlo, hdhi, hfd]
      | invariant => simp [hourStep, hlk, hdlo, hdhi, hfd]
    have heq : refineLoop close latestIndex daily dtEnd (fuel + 1) st =
        refineLoop close latestIndex daily dtEnd fuel { st with cur := st.cur + 3600 } := by
      rw [refineLoop_same_day close latestIndex daily dtEnd fuel st
        (not_lt.mpr hle) hpd, hhs]
    refine ⟨heq, ?_⟩
    rw [heq]
    cases hres : (refineLoop close latestIndex daily dtEnd fuel
        { st with cur := st.cur + 3600 }).hourly.lookup (hourFloor st.cur) with
    | none => rfl
    | some v =>
      have hsome := refineLoop_new_keys close latestIndex daily dtEnd fuel
        { st with cur := st.cur + 3600 } (hourFloor st.cur) (by rw [hres]; rfl)
      rcases hsome with hs | hb
      · rw [show ({ st with cur := st.cur + 3600 } : RefineState).hourly = st.hourly
          from rfl, hlk] at hs
        cases hs
      · rw [show ({ st with cur := st.cur + 3600 } : RefineState).cur = st.cur + 3600
          from rfl, hourFloor_add_hour] at hb
        omega

/-! ### Bounds on a successful `find_ledger_between` result -/

theorem binSearchGo_fst_bounds (close : Int → Int) (target : Int) :
    ∀ (fuel : Nat) (lo hi : Int), lo ≤ hi →
      lo ≤ (binSearchGo close target fuel lo hi).1.1 ∧
      (binSearchGo close target fuel lo hi).1.1 ≤ hi ∧
      (binSearchGo close target fuel lo hi).1.2 =
        close (binSearchGo close target fuel lo hi).1.1 := by
  intro fuel
  induction fuel with
  | zero => intro lo hi h; exact ⟨h, le_refl _, rfl⟩
  | succ fuel ih =>
    intro lo hi h
    by_cases hlt : lo + 1 < hi
    · have hmid : lo + 1 ≤ (lo + hi).fdiv 2 ∧ (lo + hi).fdiv 2 ≤ hi - 1 := by
        rw [Int.fdiv_eq_ediv _ (by norm_num)]; omega
      by_cases hge : close ((lo + hi).fdiv 2) ≥ target
      · have heq : (binSearchGo close target (fuel + 1) lo hi).1 =
            (binSearchGo close target fuel lo ((lo + hi).fdiv 2)).1 := by
          simp [binSearchGo, if_pos hlt, if_pos hge]
        rw [heq]
        obtain ⟨ha, hb, hc⟩ := ih lo ((lo + hi).fdiv 2) (by omega)
        exact ⟨ha, by omega, hc⟩
      · have heq : (binSearchGo close target (fuel + 1) lo hi).1 =
            (binSearchGo close target fuel ((lo + hi).fdiv 2) hi).1 := by
          simp [binSearchGo, if_pos hlt, if_neg hge]
        rw [heq]
        obtain ⟨ha, hb, hc⟩ := ih ((lo + hi).fdiv 2) hi (by omega)
        exact ⟨by omega, hb, hc⟩
    · have heq : (binSearchGo close target (fuel + 1) lo hi).1 = (hi, close hi) := by
        simp [binSearchGo, if_neg hlt]
      rw [heq]
      exact ⟨h, le_refl _, rfl⟩

theorem findLedgerBetween_ok_bound (close : Int → Int)
    (latestIndex target loI hiI idx t : Int)
    (hmono : StrictMono close)
    (h : findLedgerBetween close latestIndex target loI hiI = .ok (idx, t)) :
    max loI GENESIS_INDEX ≤ idx ∧ t = close idx := by
  unfold findLedgerBetween findLedgerBetweenT at h
  by_cases hfut : target > close latestIndex
  · simp [if_pos hfut] at h
  · simp only [if_neg hfut] at h
    by_cases hb : target < close (max loI GENESIS_INDEX) ∨
        target > close (min hiI latestIndex)
    · simp [if_pos hb] at h
    · simp only [if_neg hb] at h
      push_neg at hb
      have hlohi : max loI GENESIS_INDEX ≤ min hiI latestIndex := by
        by_contra hgt
        push_neg at hgt
        have := hmono hgt
        omega
      obtain ⟨h1, h2, h3⟩ := binSearchGo_fst_bounds close target
        ((min hiI latestIndex - max loI GENESIS_INDEX).toNat)
        (max loI GENESIS_INDEX) (min hiI latestIndex) hlohi
      by_cases hinv : (binSearchGo close target
          ((min hiI latestIndex - max loI GENESIS_INDEX).toNat)
          (max loI GENESIS_INDEX) (min hiI latestIndex)).1.2 < target
      · simp [if_pos hinv] at h
      · simp only [if_neg hinv] at h
        have hpair : (binSearchGo close target
            ((min hiI latestIndex - max loI GENESIS_INDEX).toNat)
            (max loI GENESIS_INDEX) (min hiI latestIndex)).1 = (idx, t) := by
          injection h
        constructor
        · have hi2 : (binSearchGo close target
              ((min hiI latestIndex - max loI GENESIS_INDEX).toNat)
              (max loI GENESIS_INDEX) (min hiI latestIndex)).1.1 = idx := by
            rw [hpair]
          exact hi2 ▸ h1
        · have ht : t = (binSearchGo close target
              ((min hiI latestIndex - max loI GENESIS_INDEX).toNat)
              (max loI GENESIS_INDEX) (min hiI latestIndex)).1.2 := by
            rw [hpair]
          have hi2 : idx = (binSearchGo close target
              ((min hiI latestIndex - max loI GENESIS_INDEX).toNat)
              (max loI GENESIS_INDEX) (min hiI latestIndex)).1.1 := by
            rw [hpair]
          rw [ht, hi2]
          exact h3

/-! ### Micro-lemmas about the low-water mark -/

theorem effLo_ge (last : Option Int) (dlo l : Int) (h : last = some l) :
    l ≤ effLo last dlo := by
  subst h
  unfold effLo
  by_cases hlt : l > dlo
  · simp [hlt]
  · simp [hlt]; omega

theorem applyMax_eq_of_le (last : Option Int) (idx : Int)
    (h : ∀ l, last = some l → l ≤ idx) : applyMax last idx = some idx := by
  cases last with
  | none => rfl
  | some l =>
    have hle := h l rfl
    unfold applyMax
    by_cases hlt : idx > l
    · simp [hlt]
    · simp only [if_neg hlt]
      have : idx = l := by omega
      rw [this]

/-! ### Second-run simulation for the refine loop -/

/-- Running the refine loop again from the first run's final `hourly`, with all
other loop variables as at the corresponding point of the first run, changes
nothing: it ends in the first run's control state with its own `hourly` and
`added` untouched. -/
theorem refineLoop_second_run (close : Int → Int) (li : Int)
    (daily : Int → Option Anchor) (dtEnd : Int) (hmono : StrictMono close) :
    ∀ (fuel : Nat) (st1 st2 : RefineState),
      st2.cur = st1.cur → st2.prevDate = st1.prevDate → st2.dayLo = st1.dayLo →
      st2.dayHi = st1.dayHi → st2.lastHourly = st1.lastHourly →
      st2.hourly = (refineLoop close li daily dtEnd fuel st1).hourly →
      refineLoop close li daily dtEnd fuel st2 =
        { refineLoop close li daily dtEnd fuel st1 with
            hourly := st2.hourly, added := st2.added } := by
  intro fuel
  induction fuel with
  | zero =>
    intro st1 st2 h1 h2 h3 h4 h5 h6
    simp only [refineLoop] at h6 ⊢
    cases st1; cases st2; simp_all
  | succ fuel ih =>
    intro st1 st2 h1 h2 h3 h4 h5 h6
    by_cases hcur : st1.cur > dtEnd
    · have e1 : refineLoop close li daily dtEnd (fuel + 1) st1 = st1 :=
        refineLoop_stop close li daily dtEnd fuel st1 hcur
      have e2 : refineLoop close li daily dtEnd (fuel + 1) st2 = st2 :=
        refineLoop_stop close li daily dtEnd fuel st2 (by rw [h1]; exact hcur)
      rw [e1] at h6
      rw [e1, e2]
      cases st1; cases st2; simp_all
    · have hncur2 : ¬ st2.cur > dtEnd := by rw [h1]; exact hcur
      have hstep : ∀ (t1 t2 : RefineState),
          t2.cur = t1.cur → t2.prevDate = t1.prevDate → t2.dayLo = t1.dayLo →
          t2.dayHi = t1.dayHi → t2.lastHourly = t1.lastHourly →
          t2.hourly = ((match hourStep close li t1 with
            | .inl s => s
            | .inr s => refineLoop close li daily dtEnd fuel s) :
              RefineState).hourly →
          ((match hourStep close li t2 with
            | .inl s => s
            | .inr s => refineLoop close li daily dtEnd fuel s) : RefineState) =
          { ((match hourStep close li t1 with
            | .inl s => s
            | .inr s => refineLoop close li daily dtEnd fuel s) : RefineState) with
              hourly := t2.hourly, added := t2.added } := by
        intro t1 t2 k1 k2 k3 k4 k5 k6
        rcases hourStep_cases close li t1 with ⟨ex, hlk, hs1⟩ |
          ⟨hlk, dlo, dhi, hdlo, hdhi,
            ⟨idx, t, hfd, hs1⟩ | ⟨hfd, hs1⟩ | ⟨e, hfd, hef, hs1⟩⟩ |
          ⟨hlk, hnb, hs1⟩
        · -- existing hour: both runs skip with the same index
          rw [hs1] at k6
          have hlk2 : t2.hourly.lookup (hourFloor t2.cur) = some ex := by
            rw [k6, k1]
            exact refineLoop_lookup_mono close li daily dtEnd fuel _ _ _ hlk
          have hs2 : hourStep close li t2 =
              .inr { t2 with lastHourly := applyMax t2.lastHourly ex.1,
                             cur := t2.cur + 3600 } := by
            simp [hourStep, hlk2]
          rw [hs1, hs2]
          exact ih _ _ (by simp [k1]) (by simp [k2]) (by simp [k3]) (by simp [k4])
            (by simp [k5]) k6
        · -- first run writes; second run finds the entry and skips
          rw [hs1] at k6
          have hlk1 : (({ t1 with
              hourly := (hourFloor t1.cur, (idx, t)) :: t1.hourly,
              added := t1.added + 1, lastHourly := some idx,
              cur := t1.cur + 3600 } : RefineState)).hourly.lookup (hourFloor t1.cur) =
              some (idx, t) := by
            simp [List.lookup_cons]
          have hlk2 : t2.hourly.lookup (hourFloor t2.cur) = some (idx, t) := by
            rw [k6, k1]
            exact refineLoop_lookup_mono close li daily dtEnd fuel _ _ _ hlk1
          have hidx : max (effLo t1.lastHourly dlo) GENESIS_INDEX ≤ idx :=
            (findLedgerBetween_ok_bound close li t1.cur (effLo t1.lastHourly dlo)
              dhi idx t hmono hfd).1
          have happ : applyMax t2.lastHourly (idx, t).1 = some idx := by
            apply applyMax_eq_of_le
            intro l hl
            rw [k5] at hl
            have := effLo_ge t1.lastHourly dlo l hl
            omega
          have hs2 : hourStep close li t2 =
              .inr { t2 with lastHourly := some idx, cur := t2.cur + 3600 } := by
            have := hourStep_cases close li t2
            rcases this with ⟨ex2, hlk2b, hs2⟩ | ⟨hlk2b, _, _, _, _, _⟩ | ⟨hlk2b, _, _⟩
            · rw [hlk2] at hlk2b
              cases hlk2b
              rw [hs2, happ]
            · rw [hlk2] at hlk2b; cases hlk2b
            · rw [hlk2] at hlk2b; cases hlk2b
          rw [hs1, hs2]
          exact ih _ _ (by simp [k1]) (by simp [k2]) (by simp [k3]) (by simp [k4])
            (by simp) k6
        · -- future: both runs break in place
          rw [hs1] at k6
          have hlk2 : t2.hourly.lookup (hourFloor t2.cur) = none := by
            rw [k6, k1]; exact hlk
          have hdlo2 : t2.dayLo = some dlo := by rw [k3]; exact hdlo
          have hdhi2 : t2.dayHi = some dhi := by rw [k4]; exact hdhi
          have hfd2 : findLedgerBetween close li t2.cur (effLo t2.lastHourly dlo) dhi =
              .error .future := by
            rw [k1, k5]; exact hfd
          have hs2 : hourStep close li t2 = .inl t2 := by
            simp [hourStep, hlk2, hdlo2, hdhi2, hfd2]
          rw [hs1, hs2]
          cases t1; cases t2; simp_all
        · -- non-future error: both runs skip the hour
          rw [hs1] at k6
          have hlk2 : t2.hourly.lookup (hourFloor t2.cur) = none := by
            cases hres : t2.hourly.lookup (hourFloor t2.cur) with
            | none => rfl
            | some v =>
              have hsome := refineLoop_new_keys close li daily dtEnd fuel
                { t1 with cur := t1.cur + 3600 } (hourFloor t2.cur)
                (by rw [← k6, hres]; rfl)
              rcases hsome with hs | hb2
              · rw [show ({ t1 with cur := t1.cur + 3600 } : RefineState).hourly =
                    t1.hourly from rfl, k1, hlk] at hs
                cases hs
              · rw [show ({ t1 with cur := t1.cur + 3600 } : RefineState).cur =
                    t1.cur + 3600 from rfl, hourFloor_add_hour, k1] at hb2
                omega
          have hdlo2 : t2.dayLo = some dlo := by rw [k3]; exact hdlo
          have hdhi2 : t2.dayHi = some dhi := by rw [k4]; exact hdhi
          have hfd2 : findLedgerBetween close li t2.cur (effLo t2.lastHourly dlo) dhi =
              .error e := by
            rw [k1, k5]; exact hfd
          have hs2 : hourStep close li t2 = .inr { t2 with cur := t2.cur + 3600 } := by
            cases e with
            | future => exact absurd rfl hef
            | bracket => simp [hourStep, hlk2, hdlo2, hdhi2, hfd2]
            | invariant => simp [hourStep, hlk2, hdlo2, hdhi2, hfd2]
          rw [hs1, hs2]
          exact ih _ _ (by simp [k1]) (by simp [k2]) (by simp [k3]) (by simp [k4])
            (by simp [k5]) k6
        · -- day bracket not set: both runs skip the hour
          rw [hs1] at k6
          have hlk2 : t2.hourly.lookup (hourFloor t2.cur) = none := by
            cases hres : t2.hourly.lookup (hourFloor t2.cur) with
            | none => rfl
            | some v =>
              have hsome := refineLoop_new_keys close li daily dtEnd fuel
                { t1 with cur := t1.cur + 3600 } (hourFloor t2.cur)
                (by rw [← k6, hres]; rfl)
              rcases hsome with hs | hb2
              · rw [show ({ t1 with cur := t1.cur + 3600 } : RefineState).hourly =
                    t1.hourly from rfl, k1, hlk] at hs
                cases hs
              · rw [show ({ t1 with cur := t1.cur + 3600 } : RefineState).cur =
                    t1.cur + 3600 from rfl, hourFloor_add_hour, k1] at hb2
                omega
          have hs2 : hourStep close li t2 = .inr { t2 with cur := t2.cur + 3600 } := by
            rcases hnb with hno | hno
            · have hdlo2 : t2.dayLo = none := by rw [k3]; exact hno
              simp [hourStep, hlk2, hdlo2]
            · have hdhi2 : t2.dayHi = none := by rw [k4]; exact hno
              cases hdl2 : t2.dayLo with
              | none => simp [hourStep, hlk2, hdl2]
              | some x => simp [hourStep, hlk2, hdl2, hdhi2]
          rw [hs1, hs2]
          exact ih _ _ (by simp [k1]) (by simp [k2]) (by simp [k3]) (by simp [k4])
            (by simp [k5]) k6
      by_cases hpd : st1.prevDate = some (dateOf st1.cur)
      · have hpd2 : st2.prevDate = some (dateOf st2.cur) := by
          rw [h2, h1]; exact hpd
        have e1 := refineLoop_same_day close li daily dtEnd fuel st1 hcur hpd
        have e2 := refineLoop_same_day close li daily dtEnd fuel st2 hncur2 hpd2
        rw [e1] at h6
        rw [e2, e1]
        exact hstep st1 st2 h1 h2 h3 h4 h5 h6
      · have hpd2 : ¬ st2.prevDate = some (dateOf st2.cur) := by
          rw [h2, h1]; exact hpd
        cases hdb : dayBounds daily (dateOf st1.cur) with
        | none =>
          have hdb2 : dayBounds daily (dateOf st2.cur) = none := by
            rw [h1]; exact hdb
          have e1 := refineLoop_new_day_none close li daily dtEnd fuel st1 hcur hpd hdb
          have e2 := refineLoop_new_day_none close li daily dtEnd fuel st2 hncur2
            hpd2 hdb2
          rw [e1] at h6
          rw [e2, e1]
          exact ih _ _ (by simp [h1]) (by simp [h1]) rfl rfl (by simp [h5]) h6
        | some p =>
          obtain ⟨dlo, dhi⟩ := p
          have hdb2 : dayBounds daily (dateOf st2.cur) = some (dlo, dhi) := by
            rw [h1]; exact hdb
          have e1 := refineLoop_new_day_some close li daily dtEnd fuel st1 dlo dhi
            hcur hpd hdb
          have e2 := refineLoop_new_day_some close li daily dtEnd fuel st2 dlo dhi
            hncur2 hpd2 hdb2
          rw [e1] at h6
          rw [e2, e1]
          exact hstep _ _ (by simp [h1]) (by simp [h1]) rfl rfl (by simp [h5]) h6

/-! ### Facts about the Clio generate loop -/

theorem dayBoundarySave_cur (st : GenState) : (dayBoundarySave st).cur = st.cur := by
  unfold dayBoundarySave
  cases st.prevDate with
  | none => rfl
  | some p => by_cases h : p = dateOf st.cur <;> simp [h]

theorem dayBoundarySave_hourly (st : GenState) :
    (dayBoundarySave st).hourly = st.hourly := by
  unfold dayBoundarySave
  cases st.prevDate with
  | none => rfl
  | some p => by_cases h : p = dateOf st.cur <;> simp [h]

theorem dayBoundarySave_added (st : GenState) :
    (dayBoundarySave st).added = st.added := by
  unfold dayBoundarySave
  cases st.prevDate with
  | none => rfl
  | some p => by_cases h : p = dateOf st.cur <;> simp [h]

theorem dayBoundarySave_prevDate (st : GenState) :
    (dayBoundarySave st).prevDate = some (dateOf st.cur) := by
  unfold dayBoundarySave
  cases hp : st.prevDate with
  | none => rfl
  | some p =>
    by_cases h : p = dateOf st.cur
    · simp [h, hp]
    · simp [h]

theorem dayBoundarySave_saves_cases (st : GenState) :
    (dayBoundarySave st).saves = st.saves ∨
    (dayBoundarySave st).saves = st.saves ++ [st.hourly] := by
  unfold dayBoundarySave
  cases st.prevDate with
  | none => exact Or.inl rfl
  | some p =>
    by_cases h : p = dateOf st.cur
    · simp [h]
    · simp [h]

/-- When the date-change prologues of two paired iterations see equal
`cur`/`prevDate`, they make the same save decision. -/
theorem dayBoundarySave_saves_pair (st1 st2 : GenState)
    (h1 : st2.cur = st1.cur) (h2 : st2.prevDate = st1.prevDate) :
    ((dayBoundarySave st2).saves = st2.saves ∧
      (dayBoundarySave st1).saves = st1.saves) ∨
    ((dayBoundarySave st2).saves = st2.saves ++ [st2.hourly] ∧
      (dayBoundarySave st1).saves = st1.saves ++ [st1.hourly]) := by
  unfold dayBoundarySave
  rw [h1, h2]
  cases st1.prevDate with
  | none => exact Or.inl ⟨rfl, rfl⟩
  | some p =>
    by_cases h : p = dateOf st1.cur
    · simp [h]
    · simp [h]

theorem genLoop_stop (clio : Int → ClioRes) (effEnd : Int) (fuel : Nat)
    (st : GenState) (h : effEnd < st.cur) :
    genLoop clio effEnd (fuel + 1) st = st := by
  simp [genLoop, if_pos h]

theorem genLoop_skip_eq (clio : Int → ClioRes) (effEnd : Int) (fuel : Nat)
    (st : GenState) (ex : Anchor) (h1 : ¬ st.cur > effEnd)
    (h2 : (dayBoundarySave st).hourly.lookup (dayBoundarySave st).cur = some ex) :
    genLoop clio effEnd (fuel + 1) st =
      genLoop clio effEnd fuel
        { dayBoundarySave st with cur := (dayBoundarySave st).cur + 3600 } := by
  simp [genLoop, if_neg h1, h2]

theorem genLoop_found_eq (clio : Int → ClioRes) (effEnd : Int) (fuel : Nat)
    (st : GenState) (a : Anchor) (h1 : ¬ st.cur > effEnd)
    (h2 : (dayBoundarySave st).hourly.lookup (dayBoundarySave st).cur = none)
    (h3 : clio (dayBoundarySave st).cur = .found a) :
    genLoop clio effEnd (fuel + 1) st =
      genLoop clio effEnd fuel
        { dayBoundarySave st with
            hourly := ((dayBoundarySave st).cur, a) :: (dayBoundarySave st).hourly,
            added := (dayBoundarySave st).added + 1,
            cur := (dayBoundarySave st).cur + 3600 } := by
  simp [genLoop, if_neg h1, h2, h3]

theorem genLoop_notfound_eq (clio : Int → ClioRes) (effEnd : Int) (fuel : Nat)
    (st : GenState) (h1 : ¬ st.cur > effEnd)
    (h2 : (dayBoundarySave st).hourly.lookup (dayBoundarySave st).cur = none)
    (h3 : clio (dayBoundarySave st).cur = .notFound) :
    genLoop clio effEnd (fuel + 1) st = dayBoundarySave st := by
  simp [genLoop, if_neg h1, h2, h3]

theorem genLoop_err_eq (clio : Int → ClioRes) (effEnd : Int) (fuel : Nat)
    (st : GenState) (h1 : ¬ st.cur > effEnd)
    (h2 : (dayBoundarySave st).hourly.lookup (dayBoundarySave st).cur = none)
    (h3 : clio (dayBoundarySave st).cur = .err) :
    genLoop clio effEnd (fuel + 1) st =
      genLoop clio effEnd fuel
        { dayBoundarySave st with cur := (dayBoundarySave st).cur + 3600 } := by
  simp [genLoop, if_neg h1, h2, h3]

theorem genLoop_lookup_mono (clio : Int → ClioRes) (effEnd : Int) :
    ∀ (fuel : Nat) (st : GenState) (k : Int) (v : Anchor),
      st.hourly.lookup k = some v →
      (genLoop clio effEnd fuel st).hourly.lookup k = some v := by
  intro fuel
  induction fuel with
  | zero => intro st k v h; simpa [genLoop] using h
  | succ fuel ih =>
    intro st k v h
    by_cases hcur : st.cur > effEnd
    · rw [genLoop_stop clio effEnd fuel st hcur]; exact h
    · have hb : (dayBoundarySave st).hourly.lookup k = some v := by
        rw [dayBoundarySave_hourly]; exact h
      cases hlk : (dayBoundarySave st).hourly.lookup (dayBoundarySave st).cur with
      | some ex =>
        rw [genLoop_skip_eq clio effEnd fuel st ex hcur hlk]
        exact ih _ _ _ hb
      | none =>
        cases hcl : clio (dayBoundarySave st).cur with
        | found a =>
          rw [genLoop_found_eq clio effEnd fuel st a hcur hlk hcl]
          apply ih
          have hne : ¬ ((k == (dayBoundarySave st).cur) = true) := by
            simp only [beq_iff_eq]
            intro hk
            rw [hk, hlk] at hb
            cases hb
          simp only [List.lookup_cons]
          rw [show (k == (dayBoundarySave st).cur) = false from
            Bool.eq_false_iff.mpr hne]
          exact hb
        | notFound =>
          rw [genLoop_notfound_eq clio effEnd fuel st hcur hlk hcl]
          exact hb
        | err =>
          rw [genLoop_err_eq clio effEnd fuel st hcur hlk hcl]
          exact ih _ _ _ hb

theorem genLoop_new_keys (clio : Int → ClioRes) (effEnd : Int) :
    ∀ (fuel : Nat) (st : GenState) (k : Int),
      ((genLoop clio effEnd fuel st).hourly.lookup k).isSome →
      (st.hourly.lookup k).isSome ∨ st.cur ≤ k := by
  intro fuel
  induction fuel with
  | zero => intro st k h; left; simpa [genLoop] using h
  | succ fuel ih =>
    intro st k h
    by_cases hcur : st.cur > effEnd
    · rw [genLoop_stop clio effEnd fuel st hcur] at h; exact Or.inl h
    · cases hlk : (dayBoundarySave st).hourly.lookup (dayBoundarySave st).cur with
      | some ex =>
        rw [genLoop_skip_eq clio effEnd fuel st ex hcur hlk] at h
        rcases ih _ _ h with hs | hb
        · left; rwa [dayBoundarySave_hourly] at hs
        · right
          rw [show ({ dayBoundarySave st with
              cur := (dayBoundarySave st).cur + 3600 } : GenState).cur =
            (dayBoundarySave st).cur + 3600 from rfl, dayBoundarySave_cur] at hb
          omega
      | none =>
        cases hcl : clio (dayBoundarySave st).cur with
        | found a =>
          rw [genLoop_found_eq clio effEnd fuel st a hcur hlk hcl] at h
          rcases ih _ _ h with hs | hb
          · simp only [List.lookup_cons] at hs
            by_cases hk : (k == (dayBoundarySave st).cur) = true
            · right
              simp only [beq_iff_eq] at hk
              rw [hk, dayBoundarySave_cur]
            · rw [Bool.eq_false_iff.mpr hk] at hs
              left; rwa [dayBoundarySave_hourly] at hs
          · right
            rw [show ({ dayBoundarySave st with
                hourly := ((dayBoundarySave st).cur, a) :: (dayBoundarySave st).hourly,
                added := (dayBoundarySave st).added + 1,
                cur := (dayBoundarySave st).cur + 3600 } : GenState).cur =
              (dayBoundarySave st).cur + 3600 from rfl, dayBoundarySave_cur] at hb
            omega
        | notFound =>
          rw [genLoop_notfound_eq clio effEnd fuel st hcur hlk hcl] at h
          left; rwa [dayBoundarySave_hourly] at h
        | err =>
          rw [genLoop_err_eq clio effEnd fuel st hcur hlk hcl] at h
          rcases ih _ _ h with hs | hb
          · left; rwa [dayBoundarySave_hourly] at hs
          · right
            rw [show ({ dayBoundarySave st with
                cur := (dayBoundarySave st).cur + 3600 } : GenState).cur =
              (dayBoundarySave st).cur + 3600 from rfl, dayBoundarySave_cur] at hb
            omega

/-- Running the Clio generate loop again from the first run's final `hourly`
adds nothing and only re-saves the unchanged document at day boundaries. -/
theorem genLoop_second_run (clio : Int → ClioRes) (effEnd : Int) :
    ∀ (fuel : Nat) (st1 st2 : GenState),
      st2.cur = st1.cur → st2.prevDate = st1.prevDate →
      st2.hourly = (genLoop clio effEnd fuel st1).hourly →
      (genLoop clio effEnd fuel st2).hourly = st2.hourly ∧
      (genLoop clio effEnd fuel st2).added = st2.added ∧
      ∃ n, (genLoop clio effEnd fuel st2).saves =
        st2.saves ++ List.replicate n st2.hourly := by
  intro fuel
  induction fuel with
  | zero =>
    intro st1 st2 h1 h2 h6
    exact ⟨rfl, rfl, 0, by simp [genLoop]⟩
  | succ fuel ih =>
    intro st1 st2 h1 h2 h6
    by_cases hcur : st1.cur > effEnd
    · have hcur2 : st2.cur > effEnd := by rw [h1]; exact hcur
      rw [genLoop_stop clio effEnd fuel st2 hcur2]
      exact ⟨rfl, rfl, 0, by simp⟩
    · have hcur2 : ¬ st2.cur > effEnd := by rw [h1]; exact hcur
      have hbcur : (dayBoundarySave st2).cur = (dayBoundarySave st1).cur := by
        rw [dayBoundarySave_cur, dayBoundarySave_cur, h1]
      have hbpd : (dayBoundarySave st2).prevDate = (dayBoundarySave st1).prevDate := by
        rw [dayBoundarySave_prevDate, dayBoundarySave_prevDate, h1]
      have hsv := dayBoundarySave_saves_cases st2
      -- helper to finish from the IH applied to continuation states
      have hfin : ∀ (s1 s2 : GenState),
          s2.cur = s1.cur → s2.prevDate = s1.prevDate →
          s2.hourly = st2.hourly → s2.added = st2.added →
          (s2.saves = st2.saves ∨ s2.saves = st2.saves ++ [st2.hourly]) →
          st2.hourly = (genLoop clio effEnd fuel s1).hourly →
          (genLoop clio effEnd fuel s2).hourly = st2.hourly ∧
          (genLoop clio effEnd fuel s2).added = st2.added ∧
          ∃ n, (genLoop clio effEnd fuel s2).saves =
            st2.saves ++ List.replicate n st2.hourly := by
        intro s1 s2 k1 k2 k3 k4 k5 k6
        obtain ⟨ha, hb, n, hc⟩ := ih s1 s2 k1 k2 (by rw [k3]; exact k6)
        refine ⟨by rw [ha, k3], by rw [hb, k4], ?_⟩
        rcases k5 with hk | hk
        · exact ⟨n, by rw [hc, hk, k3]⟩
        · refine ⟨n + 1, ?_⟩
          rw [hc, hk, k3]
          simp [List.replicate_succ]
      cases hlk1 : (dayBoundarySave st1).hourly.lookup (dayBoundarySave st1).cur with
      | some ex =>
        have e1 := genLoop_skip_eq clio effEnd fuel st1 ex hcur hlk1
        rw [e1] at h6
        have hlk2 : (dayBoundarySave st2).hourly.lookup (dayBoundarySave st2).cur =
            some ex := by
          rw [dayBoundarySave_hourly, hbcur, h6]
          apply genLoop_lookup_mono
          rw [show ({ dayBoundarySave st1 with
              cur := (dayBoundarySave st1).cur + 3600 } : GenState).hourly =
            (dayBoundarySave st1).hourly from rfl]
          exact hlk1
        rw [genLoop_skip_eq clio effEnd fuel st2 ex hcur2 hlk2]
        apply hfin ({ dayBoundarySave st1 with cur := (dayBoundarySave st1).cur + 3600 })
        · simp [hbcur]
        · simp [hbpd]
        · simp [dayBoundarySave_hourly]
        · simp [dayBoundarySave_added]
        · simpa [dayBoundarySave_hourly] using hsv
        · exact h6
      | none =>
        cases hcl : clio (dayBoundarySave st1).cur with
        | found a =>
          have e1 := genLoop_found_eq clio effEnd fuel st1 a hcur hlk1 hcl
          rw [e1] at h6
          have hlk2 : (dayBoundarySave st2).hourly.lookup (dayBoundarySave st2).cur =
              some a := by
            rw [dayBoundarySave_hourly, hbcur, h6]
            apply genLoop_lookup_mono
            simp [List.lookup_cons]
          rw [genLoop_skip_eq clio effEnd fuel st2 a hcur2 hlk2]
          apply hfin ({ dayBoundarySave st1 with
            hourly := ((dayBoundarySave st1).cur, a) :: (dayBoundarySave st1).hourly,
            added := (dayBoundarySave st1).added + 1,
            cur := (dayBoundarySave st1).cur + 3600 })
          · simp [hbcur]
          · simp [hbpd]
          · simp [dayBoundarySave_hourly]
          · simp [dayBoundarySave_added]
          · simpa [dayBoundarySave_hourly] using hsv
          · exact h6
        | notFound =>
          have e1 := genLoop_notfound_eq clio effEnd fuel st1 hcur hlk1 hcl
          rw [e1] at h6
          have hlk2 : (dayBoundarySave st2).hourly.lookup (dayBoundarySave st2).cur =
              none := by
            rw [dayBoundarySave_hourly, hbcur, h6, dayBoundarySave_hourly]
            rw [dayBoundarySave_hourly] at hlk1
            exact hlk1
          have hcl2 : clio (dayBoundarySave st2).cur = .notFound := by
            rw [hbcur]; exact hcl
          rw [genLoop_notfound_eq clio effEnd fuel st2 hcur2 hlk2 hcl2]
          refine ⟨dayBoundarySave_hourly st2, dayBoundarySave_added st2, ?_⟩
          rcases hsv with hk | hk
          · exact ⟨0, by rw [hk]; simp⟩
          · exact ⟨1, by rw [hk]; simp⟩
        | err =>
          have e1 := genLoop_err_eq clio effEnd fuel st1 hcur hlk1 hcl
          rw [e1] at h6
          have hlk2 : (dayBoundarySave st2).hourly.lookup (dayBoundarySave st2).cur =
              none := by
            rw [dayBoundarySave_hourly, hbcur]
            cases hres : st2.hourly.lookup (dayBoundarySave st1).cur with
            | none => rfl
            | some v =>
              have hsome := genLoop_new_keys clio effEnd fuel
                ({ dayBoundarySave st1 with cur := (dayBoundarySave st1).cur + 3600 })
                ((dayBoundarySave st1).cur) (by rw [← h6, hres]; rfl)
              rcases hsome with hs | hb
              · rw [show ({ dayBoundarySave st1 with
                    cur := (dayBoundarySave st1).cur + 3600 } : GenState).hourly =
                  (dayBoundarySave st1).hourly from rfl, hlk1] at hs
                cases hs
              · rw [show ({ dayBoundarySave st1 with
                    cur := (dayBoundarySave st1).cur + 3600 } : GenState).cur =
                  (dayBoundarySave st1).cur + 3600 from rfl] at hb
                omega
          have hcl2 : clio (dayBoundarySave st2).cur = .err := by
            rw [hbcur]; exact hcl
          rw [genLoop_err_eq clio effEnd fuel st2 hcur2 hlk2 hcl2]
          apply hfin ({ dayBoundarySave st1 with cur := (dayBoundarySave st1).cur + 3600 })
          · simp [hbcur]
          · simp [hbpd]
          · simp [dayBoundarySave_hourly]
          · simp [dayBoundarySave_added]
          · simpa [dayBoundarySave_hourly] using hsv
          · exact h6

/-! ### Claim 4: second runs of the builders -/

/-- C4 counterexample.  A second, unchanged run of the local Clio hourly
builder over a two-hour window crossing midnight adds nothing — yet still
performs a store write (the day-boundary save), refuting "performs no store
write" and "save is only invoked when at least one anchor was added". -/
theorem generate_local_second_run_still_saves :
    (genRun clioCex (genRun clioCex [] 82800 86400 1000000 10).hourly
        82800 86400 1000000 10).added = 0 ∧
    (genRun clioCex (genRun clioCex [] 82800 86400 1000000 10).hourly
        82800 86400 1000000 10).saves ≠ [] := by
  decide

/-- C4 as amended.  A second run of the hourly refine builder (over a
strictly monotone source) or of the local Clio builder, with source state
unchanged, makes zero additions and leaves the document exactly as the first
run produced it; the refine builder then performs no store write at all,
while the local Clio builder's final conditional save is skipped but its
day-boundary saves still fire, each rewriting the unchanged document. -/
theorem builders_second_run_amended
    (close : Int → Int) (latestIndex : Int) (daily : Int → Option Anchor)
    (hourly0 : List (Int × Anchor)) (dtStart dtEnd : Int) (fuel : Nat)
    (clio : Int → ClioRes) (genHourly0 : List (Int × Anchor))
    (gStart gEnd now : Int) (gfuel : Nat)
    (hmono : StrictMono close) :
    (refineRun close latestIndex daily
        (refineRun close latestIndex daily hourly0 dtStart dtEnd fuel).hourly
        dtStart dtEnd fuel).added = 0 ∧
    (refineRun close latestIndex daily
        (refineRun close latestIndex daily hourly0 dtStart dtEnd fuel).hourly
        dtStart dtEnd fuel).hourly =
      (refineRun close latestIndex daily hourly0 dtStart dtEnd fuel).hourly ∧
    (refineRun close latestIndex daily
        (refineRun close latestIndex daily hourly0 dtStart dtEnd fuel).hourly
        dtStart dtEnd fuel).didSave = false ∧
    (genRun clio (genRun clio genHourly0 gStart gEnd now gfuel).hourly
        gStart gEnd now gfuel).added = 0 ∧
    (genRun clio (genRun clio genHourly0 gStart gEnd now gfuel).hourly
        gStart gEnd now gfuel).hourly =
      (genRun clio genHourly0 gStart gEnd now gfuel).hourly ∧
    (genRun clio (genRun clio genHourly0 gStart gEnd now gfuel).hourly
        gStart gEnd now gfuel).didFinalSave = false ∧
    (∀ s ∈ (genRun clio (genRun clio genHourly0 gStart gEnd now gfuel).hourly
        gStart gEnd now gfuel).saves,
      s = (genRun clio genHourly0 gStart gEnd now gfuel).hourly) := by
  have hsim := refineLoop_second_run close latestIndex daily dtEnd hmono fuel
    { cur := dtStart, prevDate := none, dayLo := none, dayHi := none,
      lastHourly := none, hourly := hourly0, added := 0 }
    { cur := dtStart, prevDate := none, dayLo := none, dayHi := none,
      lastHourly := none,
      hourly := (refineLoop close latestIndex daily dtEnd fuel
        { cur := dtStart, prevDate := none, dayLo := none, dayHi := none,
          lastHourly := none, hourly := hourly0, added := 0 }).hourly,
      added := 0 }
    rfl rfl rfl rfl rfl rfl
  have hadd : (refineLoop close latestIndex daily dtEnd fuel
      { cur := dtStart, prevDate := none, dayLo := none, dayHi := none,
        lastHourly := none,
        hourly := (refineLoop close latestIndex daily dtEnd fuel
          { cur := dtStart, prevDate := none, dayLo := none, dayHi := none,
            lastHourly := none, hourly := hourly0, added := 0 }).hourly,
        added := 0 }).added = 0 := by rw [hsim]
  have hhou : (refineLoop close latestIndex daily dtEnd fuel
      { cur := dtStart, prevDate := none, dayLo := none, dayHi := none,
        lastHourly := none,
        hourly := (refineLoop close latestIndex daily dtEnd fuel
          { cur := dtStart, prevDate := none, dayLo := none, dayHi := none,
            lastHourly := none, hourly := hourly0, added := 0 }).hourly,
        added := 0 }).hourly =
      (refineLoop close latestIndex daily dtEnd fuel
        { cur := dtStart, prevDate := none, dayLo := none, dayHi := none,
          lastHourly := none, hourly := hourly0, added := 0 }).hourly := by
    rw [hsim]
  refine ⟨?_, ?_, ?_, ?_⟩
  · simp only [refineRun]
    exact hadd
  · simp only [refineRun]
    exact hhou
  · simp only [refineRun]
    simp [hadd]
  · by_cases hearly : (min gEnd now - gStart).fdiv 3600 < 0
    · simp [genRun, hearly]
    · have hearly3 : ¬ ((min gEnd now - gStart).fdiv 3600 + 1 < 1) := by omega
      have hgen := genLoop_second_run clio (min gEnd now) gfuel
        { cur := gStart, prevDate := none, hourly := genHourly0,
          added := 0, saves := [] }
        { cur := gStart, prevDate := none,
          hourly := (genLoop clio (min gEnd now) gfuel
            { cur := gStart, prevDate := none, hourly := genHourly0,
              added := 0, saves := [] }).hourly,
          added := 0, saves := [] }
        rfl rfl rfl
      obtain ⟨ha, hb, n, hc⟩ := hgen
      refine ⟨?_, ?_, ?_, ?_⟩
      · simp only [genRun, if_neg hearly3]
        exact hb
      · simp only [genRun, if_neg hearly3]
        exact ha
      · simp only [genRun, if_neg hearly3]
        simp [hb]
      · intro s hs
        simp only [genRun, if_neg hearly3] at hs ⊢
        rw [hc] at hs
        simp only [List.nil_append] at hs
        exact List.eq_of_mem_replicate hs

/-! ### Monotonicity of the anchors written by one refine run -/

theorem applyMax_some_ge (last : Option Int) (idx l : Int) (h : last = some l) :
    ∃ m, applyMax last idx = some m ∧ l ≤ m := by
  subst h
  unfold applyMax
  by_cases hlt : idx > l
  · exact ⟨idx, by simp [hlt], by omega⟩
  · exact ⟨l, by simp [hlt], le_refl _⟩

/-- Every anchor the refine loop writes has a consistent close time and an
index at least the incoming low-water mark. -/
theorem refineLoop_written_ge_last (close : Int → Int) (li : Int)
    (daily : Int → Option Anchor) (dtEnd : Int) (hmono : StrictMono close) :
    ∀ (fuel : Nat) (st : RefineState) (k : Int) (a : Anchor),
      (refineLoop close li daily dtEnd fuel st).hourly.lookup k = some a →
      st.hourly.lookup k = none →
      a.2 = close a.1 ∧ ∀ l, st.lastHourly = some l → l ≤ a.1 := by
  intro fuel
  induction fuel with
  | zero =>
    intro st k a hfin hnone
    simp only [refineLoop] at hfin
    rw [hfin] at hnone
    cases hnone
  | succ fuel ih =>
    intro st k a hfin hnone
    by_cases hcur : st.cur > dtEnd
    · rw [refineLoop_stop close li daily dtEnd fuel st hcur] at hfin
      rw [hfin] at hnone
      cases hnone
    · have hstep : ∀ t : RefineState, t.hourly = st.hourly → t.cur = st.cur →
          t.lastHourly = st.lastHourly →
          ((((match hourStep close li t with
            | .inl s => s
            | .inr s => refineLoop close li daily dtEnd fuel s) :
              RefineState).hourly.lookup k) = some a) →
          a.2 = close a.1 ∧ ∀ l, st.lastHourly = some l → l ≤ a.1 := by
        intro t ht htc htl hfin2
        rcases hourStep_cases close li t with ⟨ex, hlk, hs1⟩ |
          ⟨hlk, dlo, dhi, hdlo, hdhi,
            ⟨idx, tt, hfd, hs1⟩ | ⟨hfd, hs1⟩ | ⟨e, hfd, hef, hs1⟩⟩ |
          ⟨hlk, hnb, hs1⟩
        · -- existing hour skipped: the low-water mark only rises
          rw [hs1] at hfin2
          obtain ⟨hcons, hge⟩ := ih _ k a hfin2 (by show List.lookup k t.hourly = none; rw [ht]; exact hnone)
          refine ⟨hcons, ?_⟩
          intro l hl
          obtain ⟨m, hm, hlm⟩ := applyMax_some_ge t.lastHourly ex.1 l
            (by rw [htl]; exact hl)
          have := hge m (by simp only [hm])
          omega
        · -- anchor written this hour
          rw [hs1] at hfin2
          obtain ⟨hb1, hb2⟩ := findLedgerBetween_ok_bound close li t.cur
            (effLo t.lastHourly dlo) dhi idx tt hmono hfd
          have heff : effLo t.lastHourly dlo ≤ idx :=
            le_trans (le_max_left _ _) hb1
          by_cases hkey : k = hourFloor t.cur
          · have hmon := refineLoop_lookup_mono close li daily dtEnd fuel
              { t with hourly := (hourFloor t.cur, (idx, tt)) :: t.hourly,
                       added := t.added + 1, lastHourly := some idx,
                       cur := t.cur + 3600 } k (idx, tt)
              (by simp [List.lookup_cons, hkey])
            have ha : a = (idx, tt) := Option.some.inj (hfin2.symm.trans hmon)
            subst ha
            refine ⟨hb2, ?_⟩
            intro l hl
            have hle : l ≤ effLo t.lastHourly dlo :=
              effLo_ge _ _ _ (by rw [htl]; exact hl)
            omega
          · have hnone2 : (({ t with
                hourly := (hourFloor t.cur, (idx, tt)) :: t.hourly,
                added := t.added + 1, lastHourly := some idx,
                cur := t.cur + 3600 } : RefineState)).hourly.lookup k = none := by
              simp only [List.lookup_cons]
              rw [show ((k == hourFloor t.cur) = false) from
                beq_eq_false_iff_ne.mpr hkey]
              rw [ht]
              exact hnone
            obtain ⟨hcons, hge⟩ := ih _ k a hfin2 hnone2
            refine ⟨hcons, ?_⟩
            intro l hl
            have hidx := hge idx rfl
            have hle : l ≤ effLo t.lastHourly dlo :=
              effLo_ge _ _ _ (by rw [htl]; exact hl)
            omega
        · -- future break: nothing written
          rw [hs1] at hfin2
          have h2 : t.hourly.lookup k = some a := hfin2
          rw [ht] at h2
          rw [h2] at hnone
          cases hnone
        · -- non-future error: nothing written this hour
          rw [hs1] at hfin2
          obtain ⟨hcons, hge⟩ := ih _ k a hfin2 (by show List.lookup k t.hourly = none; rw [ht]; exact hnone)
          exact ⟨hcons, fun l hl => hge l (by rw [htl]; exact hl)⟩
        · -- no day bracket: nothing written this hour
          rw [hs1] at hfin2
          obtain ⟨hcons, hge⟩ := ih _ k a hfin2 (by show List.lookup k t.hourly = none; rw [ht]; exact hnone)
          exact ⟨hcons, fun l hl => hge l (by rw [htl]; exact hl)⟩
      by_cases hpd : st.prevDate = some (dateOf st.cur)
      · rw [refineLoop_same_day close li daily dtEnd fuel st hcur hpd] at hfin
        exact hstep st rfl rfl rfl hfin
      · cases hdb : dayBounds daily (dateOf st.cur) with
        | none =>
          rw [refineLoop_new_day_none close li daily dtEnd fuel st hcur hpd hdb] at hfin
          obtain ⟨hcons, hge⟩ := ih _ k a hfin hnone
          exact ⟨hcons, hge⟩
        | some p =>
          obtain ⟨dlo, dhi⟩ := p
          rw [refineLoop_new_day_some close li daily dtEnd fuel st dlo dhi
            hcur hpd hdb] at hfin
          exact hstep
            { st with prevDate := some (dateOf st.cur), dayLo := some dlo, dayHi := some dhi }
            rfl rfl rfl hfin

/-- Any two anchors written by one refine run are ordered: the one at the
earlier hour has the smaller-or-equal index and close time. -/
theorem refineLoop_written_pairwise (close : Int → Int) (li : Int)
    (daily : Int → Option Anchor) (dtEnd : Int) (hmono : StrictMono close) :
    ∀ (fuel : Nat) (st : RefineState) (k1 : Int) (a1 : Anchor) (k2 : Int) (a2 : Anchor),
      (refineLoop close li daily dtEnd fuel st).hourly.lookup k1 = some a1 →
      (refineLoop close li daily dtEnd fuel st).hourly.lookup k2 = some a2 →
      st.hourly.lookup k1 = none → st.hourly.lookup k2 = none → k1 < k2 →
      a1.1 ≤ a2.1 ∧ a1.2 ≤ a2.2 := by
  intro fuel
  induction fuel with
  | zero =>
    intro st k1 a1 k2 a2 h1 h2 hn1 hn2 hk
    simp only [refineLoop] at h1
    rw [h1] at hn1
    cases hn1
  | succ fuel ih =>
    intro st k1 a1 k2 a2 h1 h2 hn1 hn2 hk
    by_cases hcur : st.cur > dtEnd
    · rw [refineLoop_stop close li daily dtEnd fuel st hcur] at h1
      rw [h1] at hn1
      cases hn1
    · have hstep : ∀ t : RefineState, t.hourly = st.hourly → t.cur = st.cur →
          t.lastHourly = st.lastHourly →
          ((((match hourStep close li t with
            | .inl s => s
            | .inr s => refineLoop close li daily dtEnd fuel s) :
              RefineState).hourly.lookup k1) = some a1) →
          ((((match hourStep close li t with
            | .inl s => s
            | .inr s => refineLoop close li daily dtEnd fuel s) :
              RefineState).hourly.lookup k2) = some a2) →
          a1.1 ≤ a2.1 ∧ a1.2 ≤ a2.2 := by
        intro t ht htc htl hf1 hf2
        rcases hourStep_cases close li t with ⟨ex, hlk, hs1⟩ |
          ⟨hlk, dlo, dhi, hdlo, hdhi,
            ⟨idx, tt, hfd, hs1⟩ | ⟨hfd, hs1⟩ | ⟨e, hfd, hef, hs1⟩⟩ |
          ⟨hlk, hnb, hs1⟩
        · rw [hs1] at hf1 hf2
          exact ih _ k1 a1 k2 a2 hf1 hf2 (by show List.lookup k1 t.hourly = none; rw [ht]; exact hn1)
            (by show List.lookup k2 t.hourly = none; rw [ht]; exact hn2) hk
        · -- an anchor is written this hour
          rw [hs1] at hf1 hf2
          obtain ⟨hb1, hb2⟩ := findLedgerBetween_ok_bound close li t.cur
            (effLo t.lastHourly dlo) dhi idx tt hmono hfd
          by_cases hk1 : k1 = hourFloor t.cur
          · -- a1 is the written anchor; a2 is written later with the mark at idx
            have hmon := refineLoop_lookup_mono close li daily dtEnd fuel
              { t with hourly := (hourFloor t.cur, (idx, tt)) :: t.hourly,
                       added := t.added + 1, lastHourly := some idx,
                       cur := t.cur + 3600 } k1 (idx, tt)
              (by simp [List.lookup_cons, hk1])
            have ha : a1 = (idx, tt) := Option.some.inj (hf1.symm.trans hmon)
            subst ha
            have hk2ne : k2 ≠ hourFloor t.cur := by omega
            have hnone2 : (({ t with
                hourly := (hourFloor t.cur, (idx, tt)) :: t.hourly,
                added := t.added + 1, lastHourly := some idx,
                cur := t.cur + 3600 } : RefineState)).hourly.lookup k2 = none := by
              simp only [List.lookup_cons]
              rw [show ((k2 == hourFloor t.cur) = false) from
                beq_eq_false_iff_ne.mpr hk2ne]
              rw [ht]
              exact hn2
            obtain ⟨hcons2, hge2⟩ := refineLoop_written_ge_last close li daily dtEnd
              hmono fuel _ k2 a2 hf2 hnone2
            have hidx2 : idx ≤ a2.1 := hge2 idx rfl
            refine ⟨hidx2, ?_⟩
            rw [hcons2]
            calc (idx, tt).2 = close idx := hb2
            _ ≤ close a2.1 := hmono.monotone hidx2
          · by_cases hk2 : k2 = hourFloor t.cur
            · -- impossible: k1 would be a later-written key below k2
              exfalso
              have hnone1 : (({ t with
                  hourly := (hourFloor t.cur, (idx, tt)) :: t.hourly,
                  added := t.added + 1, lastHourly := some idx,
                  cur := t.cur + 3600 } : RefineState)).hourly.lookup k1 = none := by
                simp only [List.lookup_cons]
                rw [show ((k1 == hourFloor t.cur) = false) from
                  beq_eq_false_iff_ne.mpr hk1]
                rw [ht]
                exact hn1
              have hsome := refineLoop_new_keys close li daily dtEnd fuel
                { t with hourly := (hourFloor t.cur, (idx, tt)) :: t.hourly,
                         added := t.added + 1, lastHourly := some idx,
                         cur := t.cur + 3600 } k1 (by rw [hf1]; rfl)
              rcases hsome with hs | hb
              · rw [hnone1] at hs
                cases hs
              · rw [show ({ t with
                    hourly := (hourFloor t.cur, (idx, tt)) :: t.hourly,
                    added := t.added + 1, lastHourly := some idx,
                    cur := t.cur + 3600 } : RefineState).cur = t.cur + 3600 from rfl,
                  hourFloor_add_hour] at hb
                have hkf : hourFloor t.cur ≤ t.cur := hourFloor_le t.cur
                omega
            · have hnone1 : (({ t with
                  hourly := (hourFloor t.cur, (idx, tt)) :: t.hourly,
                  added := t.added + 1, lastHourly := some idx,
                  cur := t.cur + 3600 } : RefineState)).hourly.lookup k1 = none := by
                simp only [List.lookup_cons]
                rw [show ((k1 == hourFloor t.cur) = false) from
                  beq_eq_false_iff_ne.mpr hk1]
                rw [ht]
                exact hn1
              have hnone2 : (({ t with
                  hourly := (hourFloor t.cur, (idx, tt)) :: t.hourly,
                  added := t.added + 1, lastHourly := some idx,
                  cur := t.cur + 3600 } : RefineState)).hourly.lookup k2 = none := by
                simp only [List.lookup_cons]
                rw [show ((k2 == hourFloor t.cur) = false) from
                  beq_eq_false_iff_ne.mpr hk2]
                rw [ht]
                exact hn2
              exact ih _ k1 a1 k2 a2 hf1 hf2 hnone1 hnone2 hk
        · -- future break
          rw [hs1] at hf1
          have hcontra : t.hourly.lookup k1 = some a1 := hf1
          rw [ht] at hcontra
          rw [hcontra] at hn1
          cases hn1
        · rw [hs1] at hf1 hf2
          exact ih _ k1 a1 k2 a2 hf1 hf2 (by show List.lookup k1 t.hourly = none; rw [ht]; exact hn1)
            (by show List.lookup k2 t.hourly = none; rw [ht]; exact hn2) hk
        · rw [hs1] at hf1 hf2
          exact ih _ k1 a1 k2 a2 hf1 hf2 (by show List.lookup k1 t.hourly = none; rw [ht]; exact hn1)
            (by show List.lookup k2 t.hourly = none; rw [ht]; exact hn2) hk
      by_cases hpd : st.prevDate = some (dateOf st.cur)
      · rw [refineLoop_same_day close li daily dtEnd fuel st hcur hpd] at h1 h2
        exact hstep st rfl rfl rfl h1 h2
      · cases hdb : dayBounds daily (dateOf st.cur) with
        | none =>
          rw [refineLoop_new_day_none close li daily dtEnd fuel st hcur hpd hdb]
            at h1 h2
          exact ih _ k1 a1 k2 a2 h1 h2 hn1 hn2 hk
        | some p =>
          obtain ⟨dlo, dhi⟩ := p
          rw [refineLoop_new_day_some close li daily dtEnd fuel st dlo dhi
            hcur hpd hdb] at h1 h2
          exact hstep
            { st with prevDate := some (dateOf st.cur), dayLo := some dlo, dayHi := some dhi }
            rfl rfl rfl h1 h2

/-! ### Claim 5: monotonicity of stored anchors -/

theorem cexClose_strictMono : StrictMono cexClose := by
  intro a b hab
  unfold cexClose
  split_ifs <;> omega

/-- C5 counterexample.  Over the strictly monotone source `cexClose` (latest
index 50000 closing at 216000), a daily append run over two days stores the
anchors `(107400, -299998)` for day 1 and `(50000, 216000)` for day 2 — the
iteration cap is exhausted on day 1 and the stored pair mixes an unqueried
corrected guess with an older observed close time.  The pair violates
monotonicity: index 50000 < 107400 yet close time 216000 > -299998. -/
theorem daily_append_breaks_monotonicity :
    StrictMono cexClose ∧
    (appendRun cexClose 50000 [] 129600 216000 10).daily.lookup 2 =
      some (50000, 216000) ∧
    (appendRun cexClose 50000 [] 129600 216000 10).daily.lookup 1 =
      some (107400, -299998) ∧
    (50000 : Int) < 107400 ∧ ¬ ((216000 : Int) ≤ -299998) := by
  refine ⟨cexClose_strictMono, ?_, ?_, ?_, ?_⟩ <;> decide

/-- C5 as amended.  The anchors written by one hourly refine run over a
strictly monotone source do satisfy the monotonicity invariant: written
anchors' indices never go below the running low-water mark, so index order
follows hour order and close-time order follows index order.  The daily
append pass, by contrast, performs no ordering check and can violate
monotonicity when its iteration cap is exhausted. -/
theorem refine_written_anchors_monotone
    (close : Int → Int) (latestIndex : Int) (daily : Int → Option Anchor)
    (hourly0 : List (Int × Anchor)) (dtStart dtEnd : Int) (fuel : Nat)
    (hmono : StrictMono close) :
    ∀ (k1 : Int) (a1 : Anchor) (k2 : Int) (a2 : Anchor),
      (refineRun close latestIndex daily hourly0 dtStart dtEnd fuel).hourly.lookup k1 =
        some a1 →
      (refineRun close latestIndex daily hourly0 dtStart dtEnd fuel).hourly.lookup k2 =
        some a2 →
      hourly0.lookup k1 = none → hourly0.lookup k2 = none →
      (k1 < k2 → a1.1 ≤ a2.1) ∧ (a1.1 < a2.1 → a1.2 ≤ a2.2) := by
  intro k1 a1 k2 a2 h1 h2 hn1 hn2
  simp only [refineRun] at h1 h2
  constructor
  · intro hk
    exact (refineLoop_written_pairwise close latestIndex daily dtEnd hmono fuel
      { cur := dtStart, prevDate := none, dayLo := none, dayHi := none,
        lastHourly := none, hourly := hourly0, added := 0 }
      k1 a1 k2 a2 h1 h2 hn1 hn2 hk).1
  · intro hidx
    rcases lt_trichotomy k1 k2 with hk | hk | hk
    · exact (refineLoop_written_pairwise close latestIndex daily dtEnd hmono fuel
        { cur := dtStart, prevDate := none, dayLo := none, dayHi := none,
          lastHourly := none, hourly := hourly0, added := 0 }
        k1 a1 k2 a2 h1 h2 hn1 hn2 hk).2
    · subst hk
      rw [h1] at h2
      have ha : a1 = a2 := Option.some.inj h2
      subst ha
      exact absurd hidx (lt_irrefl _)
    · have := (refineLoop_written_pairwise close latestIndex daily dtEnd hmono fuel
        { cur := dtStart, prevDate := none, dayLo := none, dayHi := none,
          lastHourly := none, hourly := hourly0, added := 0 }
        k2 a2 k1 a1 h2 h1 hn2 hn1 hk).1
      omega

/-! ### Claims 7 and 8: the iterative strategy's clamping and fallback -/

theorem iterGuessLoop_mem_trace (close : Int → Int) (dt : Int) :
    ∀ (fuel : Nat) (g ct q : Int),
      q ∈ (iterGuessLoop close dt fuel g ct).2 → q = g ∨ 1 ≤ q := by
  intro fuel
  induction fuel with
  | zero => intro g ct q h; simp [iterGuessLoop] at h
  | succ fuel ih =>
    intro g ct q h
    by_cases htol : (close g - dt).natAbs < 3600
    · simp [iterGuessLoop, htol] at h
      exact Or.inl h
    · simp only [iterGuessLoop, if_neg htol] at h
      rcases List.mem_cons.mp h with h | h
      · exact Or.inl h
      · rcases ih _ _ _ h with h2 | h2
        · right
          rw [h2]
          unfold clamp1
          split <;> omega
        · exact Or.inr h2

theorem iterGuessLoop_tail_ge_one (close : Int → Int) (dt : Int) :
    ∀ (fuel : Nat) (g ct q : Int),
      q ∈ ((iterGuessLoop close dt fuel g ct).2).tail → 1 ≤ q := by
  intro fuel
  cases fuel with
  | zero => intro g ct q h; simp [iterGuessLoop] at h
  | succ n =>
    intro g ct q h
    by_cases htol : (close g - dt).natAbs < 3600
    · simp [iterGuessLoop, htol] at h
    · simp only [iterGuessLoop, if_neg htol, List.tail_cons] at h
      rcases iterGuessLoop_mem_trace close dt n _ _ q h with h2 | h2
      · rw [h2]
        unfold clamp1
        split <;> omega
      · exact h2

/-- C7 counterexample.  On a concrete run, `get_ledger_index_by_date` queries
index 28400 (the unclamped initial guess) and index 1 (a corrected guess) —
both strictly below the origin index 32570. -/
theorem strategyA_queries_below_genesis :
    (28400 : Int) ∈ (getLedgerIndexByDate cexClose 50000 129600 5).2 ∧
    (1 : Int) ∈ (getLedgerIndexByDate cexClose 50000 129600 5).2 ∧
    ¬ (GENESIS_INDEX ≤ (28400 : Int)) ∧ ¬ (GENESIS_INDEX ≤ (1 : Int)) := by
  refine ⟨?_, ?_, ?_, ?_⟩ <;> decide

/-- C7 as amended.  The iterative strategy clamps only its corrected guesses,
and only to 1 (not to the origin index 32570): every by-index query after
the first is at least 1, while the initial guess is issued unclamped. -/
theorem strategyA_corrected_guesses_ge_one
    (close : Int → Int) (latestIndex dt : Int) (maxIter : Nat) :
    ∀ q ∈ ((getLedgerIndexByDate close latestIndex dt maxIter).2).tail, 1 ≤ q := by
  intro q hq
  by_cases hfut : dt > close latestIndex
  · simp [getLedgerIndexByDate, if_pos hfut] at hq
  · simp only [getLedgerIndexByDate, if_neg hfut] at hq
    exact iterGuessLoop_tail_ge_one close dt maxIter _ _ q hq

theorem iterGuessLoop_succ_hit (close : Int → Int) (dt : Int) (fuel : Nat)
    (g ct : Int) (h : (close g - dt).natAbs < 3600) :
    iterGuessLoop close dt (fuel + 1) g ct = ((g, close g), [g]) := by
  conv_lhs => rw [iterGuessLoop]
  simp [if_pos h]

theorem iterGuessLoop_succ_miss (close : Int → Int) (dt : Int) (fuel : Nat)
    (g ct : Int) (h : ¬ (close g - dt).natAbs < 3600) :
    iterGuessLoop close dt (fuel + 1) g ct =
      ((iterGuessLoop close dt fuel (clamp1 (g - (close g - dt).tdiv 4)) (close g)).1,
        g :: (iterGuessLoop close dt fuel
          (clamp1 (g - (close g - dt).tdiv 4)) (close g)).2) := by
  conv_lhs => rw [iterGuessLoop]
  simp [if_neg h]

theorem iterGuessLoop_exhausted (close : Int → Int) (dt : Int) :
    ∀ (fuel : Nat) (g ct : Int),
      (∀ q ∈ (iterGuessLoop close dt fuel g ct).2, 3600 ≤ (close q - dt).natAbs) →
      0 < fuel →
      ∃ last : Int,
        ((iterGuessLoop close dt fuel g ct).2).getLast? = some last ∧
        (iterGuessLoop close dt fuel g ct).1 =
          (clamp1 (last - (close last - dt).tdiv 4), close last) ∧
        ((iterGuessLoop close dt fuel g ct).2).length = fuel := by
  intro fuel
  induction fuel with
  | zero => intro g ct _ hpos; omega
  | succ n ih =>
    intro g ct hmiss _
    have hmisshead : ¬ ((close g - dt).natAbs < 3600) := by
      have hg : g ∈ (iterGuessLoop close dt (n + 1) g ct).2 := by
        by_cases htol : (close g - dt).natAbs < 3600
        · rw [iterGuessLoop_succ_hit close dt n g ct htol]; simp
        · rw [iterGuessLoop_succ_miss close dt n g ct htol]; simp
      have := hmiss g hg
      omega
    have heq := iterGuessLoop_succ_miss close dt n g ct hmisshead
    cases n with
    | zero =>
      refine ⟨g, ?_, ?_, ?_⟩ <;> rw [heq] <;> simp [iterGuessLoop]
    | succ m =>
      have hsub : ∀ q ∈ (iterGuessLoop close dt (m + 1)
          (clamp1 (g - (close g - dt).tdiv 4)) (close g)).2,
          3600 ≤ (close q - dt).natAbs := by
        intro q hqm
        apply hmiss
        rw [heq]
        exact List.mem_cons_of_mem _ hqm
      obtain ⟨last, hl1, hl2, hl3⟩ := ih (clamp1 (g - (close g - dt).tdiv 4))
        (close g) hsub (by omega)
      refine ⟨last, ?_, ?_, ?_⟩
      · rw [heq]
        show (g :: (iterGuessLoop close dt (m + 1)
          (clamp1 (g - (close g - dt).tdiv 4)) (close g)).2).getLast? = some last
        cases hres : (iterGuessLoop close dt (m + 1)
            (clamp1 (g - (close g - dt).tdiv 4)) (close g)).2 with
        | nil =>
          rw [hres] at hl3
          simp at hl3
        | cons x xs =>
          rw [List.getLast?_cons_cons]
          rw [hres] at hl1
          exact hl1
      · rw [heq]
        exact hl2
      · rw [heq]
        show (g :: (iterGuessLoop close dt (m + 1)
          (clamp1 (g - (close g - dt).tdiv 4)) (close g)).2).length = m + 1 + 1
        rw [List.length_cons, hl3]

/-- C8 counterexample.  On a concrete cap-exhausted run the function returns
the pair `(107400, -299998)`, but the last-tried index is 1, not 107400, and
`-299998` is the close time observed at index 1, not at 107400 (whose close
time is 2512000): the returned pair is not "a consistent index/timestamp pair
for a ledger actually queried". -/
theorem strategyA_exhausted_pair_inconsistent :
    (getLedgerIndexByDate cexClose 50000 129600 5).1 = .ok (107400, -299998) ∧
    ((getLedgerIndexByDate cexClose 50000 129600 5).2).getLast? = some 1 ∧
    (107400 : Int) ≠ 1 ∧ cexClose 107400 ≠ -299998 := by
  refine ⟨by rfl, by decide, by decide, by decide⟩

/-- C8 as amended.  When the iteration cap is exhausted without any queried
close time falling within the one-hour tolerance, the function returns — not
the last-tried pair, but the next corrected guess (clamped to at least 1)
paired with the close time observed at the last queried index. -/
theorem strategyA_cap_exhausted_returns_corrected_guess
    (close : Int → Int) (latestIndex dt : Int) (maxIter : Nat)
    (hfut : dt ≤ close latestIndex) (hpos : 0 < maxIter)
    (hmiss : ∀ q ∈ (getLedgerIndexByDate close latestIndex dt maxIter).2,
        3600 ≤ (close q - dt).natAbs) :
    ∃ last : Int,
      ((getLedgerIndexByDate close latestIndex dt maxIter).2).getLast? = some last ∧
      (getLedgerIndexByDate close latestIndex dt maxIter).1 =
        .ok (clamp1 (last - (close last - dt).tdiv 4), close last) ∧
      ((getLedgerIndexByDate close latestIndex dt maxIter).2).length = maxIter := by
  have hnofut : ¬ (dt > close latestIndex) := not_lt.mpr hfut
  simp only [getLedgerIndexByDate, if_neg hnofut] at hmiss ⊢
  obtain ⟨last, h1, h2, h3⟩ := iterGuessLoop_exhausted close dt maxIter
    (latestIndex - (close latestIndex - dt).tdiv 4) (close latestIndex) hmiss hpos
  exact ⟨last, h1, by rw [h2], h3⟩

/-! ### Association-list helpers (string-keyed mappings) -/

theorem lookup_some_mem {α : Type} (m : List (String × α)) (k : String) (v : α)
    (h : m.lookup k = some v) : (k, v) ∈ m := by
  induction m with
  | nil => cases h
  | cons p rest ih =>
    obtain ⟨k', v'⟩ := p
    rw [List.lookup_cons] at h
    by_cases hk : k = k'
    · subst hk
      simp at h
      subst h
      exact List.mem_cons_self _ _
    · rw [show ((k == k') = false) from beq_eq_false_iff_ne.mpr hk] at h
      exact List.mem_cons_of_mem _ (ih h)

theorem mem_lookup_of_nodup {α : Type} (m : List (String × α)) (k : String) (v : α)
    (hnd : (m.map Prod.fst).Nodup) (h : (k, v) ∈ m) : m.lookup k = some v := by
  induction m with
  | nil => cases h
  | cons p rest ih =>
    obtain ⟨k', v'⟩ := p
    simp only [List.map_cons, List.nodup_cons] at hnd
    rcases List.mem_cons.mp h with h | h
    · cases h
      simp [List.lookup_cons]
    · have hk : k ≠ k' := by
        intro hkk
        apply hnd.1
        rw [← hkk]
        exact List.mem_map.mpr ⟨(k, v), h, rfl⟩
      rw [List.lookup_cons,
        show ((k == k') = false) from beq_eq_false_iff_ne.mpr hk]
      exact ih hnd.2 h

theorem lookup_isSome_iff_mem_keys {α : Type} (m : List (String × α)) (k : String) :
    (m.lookup k).isSome ↔ k ∈ m.map Prod.fst := by
  induction m with
  | nil => simp
  | cons p rest ih =>
    obtain ⟨k', v'⟩ := p
    rw [List.lookup_cons]
    by_cases hk : k = k'
    · subst hk
      simp
    · rw [show ((k == k') = false) from beq_eq_false_iff_ne.mpr hk]
      simp only [List.map_cons, List.mem_cons]
      rw [ih]
      constructor
      · exact Or.inr
      · rintro (h | h)
        · exact absurd h hk
        · exact h

theorem lookup_append_some {α : Type} (m1 m2 : List (String × α)) (k : String) (v : α)
    (h : m1.lookup k = some v) : (m1 ++ m2).lookup k = some v := by
  induction m1 with
  | nil => cases h
  | cons p rest ih =>
    obtain ⟨k', v'⟩ := p
    rw [List.lookup_cons] at h
    rw [List.cons_append, List.lookup_cons]
    by_cases hk : k = k'
    · subst hk
      simpa using h
    · rw [show ((k == k') = false) from beq_eq_false_iff_ne.mpr hk] at h ⊢
      exact ih h

theorem lookup_append_none {α : Type} (m1 m2 : List (String × α)) (k : String)
    (h : m1.lookup k = none) : (m1 ++ m2).lookup k = m2.lookup k := by
  induction m1 with
  | nil => simp
  | cons p rest ih =>
    obtain ⟨k', v'⟩ := p
    rw [List.lookup_cons] at h
    rw [List.cons_append, List.lookup_cons]
    by_cases hk : k = k'
    · subst hk
      simp at h
    · rw [show ((k == k') = false) from beq_eq_false_iff_ne.mpr hk] at h ⊢
      exact ih h

theorem lookup_filter_none {α : Type} (p : String → Bool) (m : List (String × α))
    (k : String) (hp : p k = false) :
    (m.filter (fun kv => p kv.1)).lookup k = none := by
  induction m with
  | nil => rfl
  | cons q rest ih =>
    obtain ⟨k', v'⟩ := q
    by_cases hq : p k'
    · rw [List.filter_cons_of_pos (by simpa using hq), List.lookup_cons]
      have hk : k ≠ k' := by
        intro hkk
        subst hkk
        rw [hq] at hp
        cases hp
      rw [show ((k == k') = false) from beq_eq_false_iff_ne.mpr hk]
      exact ih
    · rw [List.filter_cons_of_neg (by simpa using hq)]
      exact ih

/-- The Python-dict build loop of the migration path equals a filter when the
input keys are unique. -/
theorem fold_dinsert_eq_filter {α : Type} (p : String → Bool) :
    ∀ (old : List (String × α)) (acc : List (String × α)),
      (old.map Prod.fst).Nodup →
      (∀ k, k ∈ old.map Prod.fst → acc.lookup k = none) →
      old.foldl (fun acc kv => if p kv.1 then dinsert acc kv.1 kv.2 else acc) acc =
        acc ++ old.filter (fun kv => p kv.1) := by
  intro old
  induction old with
  | nil => intro acc _ _; simp
  | cons q rest ih =>
    intro acc hnd hdisj
    obtain ⟨k, v⟩ := q
    simp only [List.map_cons, List.nodup_cons] at hnd
    by_cases hp : p k
    · have hnone : acc.lookup k = none := hdisj k (by simp)
      have hins : dinsert acc k v = acc ++ [(k, v)] := by
        unfold dinsert
        rw [hnone]
        simp
      rw [List.foldl_cons]
      simp only [hp, if_true, hins]
      rw [ih (acc ++ [(k, v)]) hnd.2 ?_]
      · rw [List.filter_cons_of_pos (by simpa using hp)]
        simp
      · intro k' hk'
        have hk'k : k' ≠ k := by
          intro hkk
          subst hkk
          exact hnd.1 hk'
        rw [lookup_append_none _ _ _ (hdisj k' (by simp [hk']))]
        rw [List.lookup_cons,
          show ((k' == k) = false) from beq_eq_false_iff_ne.mpr hk'k]
        rfl
    · rw [List.foldl_cons]
      rw [if_neg (by simpa using hp)]
      rw [ih acc hnd.2 (fun k' hk' => hdisj k' (by simp [hk']))]
      rw [List.filter_cons_of_neg (by simpa using hp)]

/-! ### Claim 6: legacy flat-format migration -/

/-- C6 (confirmed).  Migrating a legacy flat document keeps exactly the
top-level entries whose keys match the `YYYY-MM-DD` pattern (values
unchanged, other keys dropped), leaves `hourly` empty, and sets `meta.year`
to the first 4-digit run of the path's basename, or 0 if there is none. -/
theorem migrate_flat_format_spec (α : Type) (old : List (String × α)) (path : String)
    (hnd : (old.map Prod.fst).Nodup) :
    migrateOldFlatFormat old path =
      { meta := { year := (firstYearNum (baseName path).data).getD 0, version := 1 },
        daily := old.filter (fun kv => matchesDateKey kv.1),
        hourly := [] } := by
  unfold migrateOldFlatFormat mkEmptyCache
  have hd := fold_dinsert_eq_filter matchesDateKey old [] hnd (by intro k _; rfl)
  rw [hd]
  rfl

/-! ### Claim 9: sorted persistence -/

theorem map_fst_filterMap_lookup {α : Type} (m : List (String × α)) :
    ∀ l : List String, (∀ k ∈ l, (m.lookup k).isSome) →
      (l.filterMap (fun k => (m.lookup k).map (fun v => (k, v)))).map Prod.fst = l := by
  intro l
  induction l with
  | nil => intro _; rfl
  | cons k rest ih =>
    intro hall
    have hk := hall k (by simp)
    obtain ⟨v, hv⟩ := Option.isSome_iff_exists.mp hk
    simp [List.filterMap_cons, hv, ih (fun k' hk' => hall k' (by simp [hk']))]

theorem mem_sortPairs_iff {α : Type} (m : List (String × α)) (k : String) (v : α)
    (hnd : (m.map Prod.fst).Nodup) :
    (k, v) ∈ sortPairs m ↔ (k, v) ∈ m := by
  unfold sortPairs
  rw [List.mem_filterMap]
  constructor
  · rintro ⟨k', hk', hf⟩
    rcases hres : m.lookup k' with _ | v'
    · rw [hres] at hf
      cases hf
    · rw [hres] at hf
      simp only [Option.map_some', Option.some.injEq] at hf
      have hkk : k' = k := congrArg Prod.fst hf
      subst hkk
      have hvv : v' = v := congrArg Prod.snd hf
      subst hvv
      exact lookup_some_mem m k' v' hres
  · intro hm
    refine ⟨k, ?_, ?_⟩
    · have : k ∈ m.map Prod.fst := List.mem_map.mpr ⟨(k, v), hm, rfl⟩
      exact (List.perm_insertionSort (fun a b => a ≤ b) (m.map Prod.fst)).mem_iff.mpr this
    · rw [mem_lookup_of_nodup m k v hnd hm]
      rfl

theorem sortPairs_keys {α : Type} (m : List (String × α)) :
    (sortPairs m).map Prod.fst =
      List.insertionSort (fun a b => a ≤ b) (m.map Prod.fst) := by
  unfold sortPairs
  apply map_fst_filterMap_lookup
  intro k hk
  rw [lookup_isSome_iff_mem_keys]
  exact (List.perm_insertionSort (fun a b => a ≤ b) (m.map Prod.fst)).mem_iff.mp hk

theorem sorted_le_nodup_lt (l : List String)
    (hs : l.Sorted (fun a b => a ≤ b)) (hn : l.Nodup) :
    List.Sorted (· < ·) l := by
  have := (List.Pairwise.and hs hn)
  exact this.imp (fun h => lt_of_le_of_ne h.1 h.2)

/-- C9 (confirmed).  The document written by `save_cache` has the same
`meta`, exactly the same daily and hourly key-value pairs as the in-memory
document, and its daily and hourly keys in strictly ascending order. -/
theorem saveCache_sorted_and_preserving (α : Type) (c : CacheDoc α)
    (hd : (c.daily.map Prod.fst).Nodup) (hh : (c.hourly.map Prod.fst).Nodup) :
    (saveCache c).meta = c.meta ∧
    (∀ (k : String) (v : α), (k, v) ∈ (saveCache c).daily ↔ (k, v) ∈ c.daily) ∧
    (∀ (k : String) (v : α), (k, v) ∈ (saveCache c).hourly ↔ (k, v) ∈ c.hourly) ∧
    List.Sorted (· < ·) ((saveCache c).daily.map Prod.fst) ∧
    List.Sorted (· < ·) ((saveCache c).hourly.map Prod.fst) := by
  refine ⟨rfl, ?_, ?_, ?_, ?_⟩
  · intro k v
    exact mem_sortPairs_iff c.daily k v hd
  · intro k v
    exact mem_sortPairs_iff c.hourly k v hh
  · rw [show (saveCache c).daily = sortPairs c.daily from rfl, sortPairs_keys]
    apply sorted_le_nodup_lt
    · exact List.sorted_insertionSort _ _
    · exact ((List.perm_insertionSort (fun a b => a ≤ b) _).nodup_iff).mpr hd
  · rw [show (saveCache c).hourly = sortPairs c.hourly from rfl, sortPairs_keys]
    apply sorted_le_nodup_lt
    · exact List.sorted_insertionSort _ _
    · exact ((List.perm_insertionSort (fun a b => a ≤ b) _).nodup_iff).mpr hh

/-! ### Claim 10: the two load discriminants -/

/-- C10 (confirmed).  A stored object with `meta` and `daily` but no `hourly`
is re-migrated by the Clio loaders — its top-level date-shaped keys become
the whole `daily` and everything nested under its `daily` field is dropped
(the key `daily` itself is not date-shaped) — while the rough-append loader
accepts the same object as current format, merely appending an empty
`hourly`, so its `daily` anchors survive. -/
theorem clio_load_drops_daily_append_load_keeps_it
    (fields : List (String × JVal)) (path : String) (mv dv : JVal)
    (hnd : (fields.map Prod.fst).Nodup)
    (hm : fields.lookup "meta" = some mv)
    (hd : fields.lookup "daily" = some dv)
    (hh : fields.lookup "hourly" = none) :
    clioLoadStored (JVal.obj fields) path =
      JVal.obj [("meta", JVal.obj [("year", JVal.num ((inferYearFromPath path).getD 0)),
                           ("version", JVal.num 2)]),
            ("daily", JVal.obj (fields.filter (fun kv => matchesDateKey kv.1))),
            ("hourly", JVal.obj [])] ∧
    (fields.filter (fun kv => matchesDateKey kv.1)).lookup "daily" = none ∧
    appendLoadStored (JVal.obj fields) path =
      some (JVal.obj (fields ++ [("hourly", JVal.obj [])])) ∧
    (fields ++ [("hourly", JVal.obj [])]).lookup "daily" = some dv := by
  refine ⟨?_, ?_, ?_, ?_⟩
  · simp only [clioLoadStored]
    rw [hm, hh]
    simp only [Option.isSome_some, Option.isSome_none, Bool.and_false,
      Bool.false_eq_true, if_false]
    simp only [clioMigrate, flatDaily]
    rw [fold_dinsert_eq_filter matchesDateKey fields [] hnd (by intro k _; rfl)]
    rfl
  · exact lookup_filter_none matchesDateKey fields "daily" (by decide)
  · simp only [appendLoadStored]
    rw [hm, hd, hh]
    simp
  · exact lookup_append_some fields _ "daily" dv hd

/-! ### Witnesses: concrete instantiations of the claim theorems -/

theorem findLedgerBetween_least_witness :
    idClose (max 0 GENESIS_INDEX) < 32575 ∧
    (∃ i, findLedgerBetween idClose 32580 32575 0 1000000 = .ok (i, idClose i) ∧
      32575 ≤ idClose i ∧ ∀ j, j < i → idClose j < 32575) :=
  ⟨by decide, findLedgerBetween_returns_least_index idClose 32580 32575 0 1000000
    (fun _ _ h => h) (by decide) (by decide) (by decide)⟩

theorem future_target_stops_witness :
    getLedgerIndexByDate idClose 100 200 5 = (.error .future, []) ∧
    findLedgerBetweenT idClose 100 200 0 50 = (.error .future, []) ∧
    refineLoop idClose 100 (fun _ => none) 300 (3 + 1)
      { cur := 200, prevDate := some 0, dayLo := some 1, dayHi := some 2,
        lastHourly := none, hourly := [], added := 0 } =
      { cur := 200, prevDate := some 0, dayLo := some 1, dayHi := some 2,
        lastHourly := none, hourly := [], added := 0 } ∧
    appendLoop idClose 100 300 (3 + 1) { cur := 200, daily := [], added := 0 } =
      { cur := 200, daily := [], added := 0 } :=
  ⟨(future_target_stops_both_strategies_and_builders idClose 100).1 200 5 (by decide),
   (future_target_stops_both_strategies_and_builders idClose 100).2.1 200 0 50
     (by decide),
   (future_target_stops_both_strategies_and_builders idClose 100).2.2.1
     (fun _ => none) 300 3 _ 1 2 (by decide) (by decide) rfl rfl rfl (by decide),
   (future_target_stops_both_strategies_and_builders idClose 100).2.2.2
     300 3 _ (by decide) rfl (by decide)⟩

theorem bracket_error_iff_witness :
    ((findLedgerBetween idClose 1000000 86400 90000 200000 = .error .bracket) ↔
      (86400 < idClose (max 90000 GENESIS_INDEX) ∨
        idClose (min 200000 1000000) < 86400)) ∧
    (refineLoop idClose 1000000 (fun _ => none) 86400 (1 + 1)
        { cur := 86400, prevDate := some 1, dayLo := some 90000,
          dayHi := some 200000, lastHourly := none, hourly := [], added := 0 } =
      refineLoop idClose 1000000 (fun _ => none) 86400 1
        { cur := 86400 + 3600, prevDate := some 1, dayLo := some 90000,
          dayHi := some 200000, lastHourly := none, hourly := [], added := 0 } ∧
     (refineLoop idClose 1000000 (fun _ => none) 86400 (1 + 1)
        { cur := 86400, prevDate := some 1, dayLo := some 90000,
          dayHi := some 200000, lastHourly := none, hourly := [],
          added := 0 }).hourly.lookup (hourFloor 86400) = none) :=
  ⟨(bracket_error_iff_outside_and_skips_slot idClose 1000000).1 86400 90000 200000
     (by decide),
   (bracket_error_iff_outside_and_skips_slot idClose 1000000).2 (fun _ => none)
     86400 1 _ 90000 200000 .bracket (by decide) (by decide) rfl rfl rfl rfl
     (by decide)⟩

theorem builders_second_run_witness :
    (refineRun idClose 1000000 dailyW
      (refineRun idClose 1000000 dailyW [] 86400 90000 10).hourly
      86400 90000 10).added = 0 ∧
    (genRun clioCex (genRun clioCex [] 82800 86400 1000000 10).hourly
      82800 86400 1000000 10).added = 0 ∧
    (genRun clioCex (genRun clioCex [] 82800 86400 1000000 10).hourly
      82800 86400 1000000 10).didFinalSave = false :=
  ⟨(builders_second_run_amended idClose 1000000 dailyW [] 86400 90000 10
      clioCex [] 82800 86400 1000000 10 (fun _ _ h => h)).1,
   (builders_second_run_amended idClose 1000000 dailyW [] 86400 90000 10
      clioCex [] 82800 86400 1000000 10 (fun _ _ h => h)).2.2.2.1,
   (builders_second_run_amended idClose 1000000 dailyW [] 86400 90000 10
      clioCex [] 82800 86400 1000000 10 (fun _ _ h => h)).2.2.2.2.2.1⟩

theorem refine_written_anchors_witness :
    ((86400 : Int), (86400 : Int)).1 ≤ ((90000 : Int), (90000 : Int)).1 ∧
    ((86400 : Int), (86400 : Int)).2 ≤ ((90000 : Int), (90000 : Int)).2 :=
  ⟨(refine_written_anchors_monotone idClose 1000000 dailyW [] 86400 90000 10
      (fun _ _ h => h) 86400 (86400, 86400) 90000 (90000, 90000)
      (by decide) (by decide) rfl rfl).1 (by decide),
   (refine_written_anchors_monotone idClose 1000000 dailyW [] 86400 90000 10
      (fun _ _ h => h) 86400 (86400, 86400) 90000 (90000, 90000)
      (by decide) (by decide) rfl rfl).2 (by decide)⟩

theorem migrate_flat_format_witness :
    (([("2024-01-01", (1 : Int)), ("notadate", 2)]).map Prod.fst).Nodup ∧
    migrateOldFlatFormat [("2024-01-01", (1 : Int)), ("notadate", 2)]
        "ledger_cache_2024.json" =
      { meta := { year := (firstYearNum (baseName "ledger_cache_2024.json").data).getD 0,
                  version := 1 },
        daily := ([("2024-01-01", (1 : Int)), ("notadate", 2)]).filter
          (fun kv => matchesDateKey kv.1),
        hourly := [] } :=
  ⟨by decide, migrate_flat_format_spec Int
    [("2024-01-01", (1 : Int)), ("notadate", 2)] "ledger_cache_2024.json" (by decide)⟩

theorem strategyA_corrected_guesses_witness :
    (1 : Int) ∈ ((getLedgerIndexByDate cexClose 50000 129600 5).2).tail ∧
    1 ≤ (1 : Int) :=
  ⟨by decide, strategyA_corrected_guesses_ge_one cexClose 50000 129600 5 1 (by decide)⟩

theorem strategyA_cap_exhausted_witness :
    (129600 : Int) ≤ cexClose 50000 ∧
    (∃ last : Int,
      ((getLedgerIndexByDate cexClose 50000 129600 5).2).getLast? = some last ∧
      (getLedgerIndexByDate cexClose 50000 129600 5).1 =
        .ok (clamp1 (last - (cexClose last - 129600).tdiv 4), cexClose last) ∧
      ((getLedgerIndexByDate cexClose 50000 129600 5).2).length = 5) :=
  ⟨by decide, strategyA_cap_exhausted_returns_corrected_guess cexClose 50000 129600 5
    (by decide) (by decide) (by decide)⟩

theorem saveCache_sorted_witness :
    (([("2024-01-02", (2 : Int)), ("2024-01-01", 1)]).map Prod.fst).Nodup ∧
    (saveCache { meta := { year := 2024, version := 1 }, daily := [("2024-01-02", (2 : Int)), ("2024-01-01", 1)], hourly := [] }).meta =
      ({ meta := { year := 2024, version := 1 }, daily := [("2024-01-02", (2 : Int)), ("2024-01-01", 1)], hourly := [] } : CacheDoc Int).meta ∧
    List.Sorted (· < ·) ((saveCache { meta := { year := 2024, version := 1 }, daily := [("2024-01-02", (2 : Int)), ("2024-01-01", 1)], hourly := [] }).daily.map Prod.fst) :=
  ⟨by decide,
   (saveCache_sorted_and_preserving Int { meta := { year := 2024, version := 1 }, daily := [("2024-01-02", (2 : Int)), ("2024-01-01", 1)], hourly := [] } (by decide) (by decide)).1,
   (saveCache_sorted_and_preserving Int { meta := { year := 2024, version := 1 }, daily := [("2024-01-02", (2 : Int)), ("2024-01-01", 1)], hourly := [] } (by decide) (by decide)).2.2.2.1⟩

theorem clio_load_discriminant_witness :
    (([("meta", JVal.other),
       ("daily", JVal.obj [("2024-01-01", JVal.num 1)])]).map Prod.fst).Nodup ∧
    clioLoadStored (JVal.obj [("meta", JVal.other),
        ("daily", JVal.obj [("2024-01-01", JVal.num 1)])]) "x2024.json" =
      JVal.obj [("meta", JVal.obj [("year",
            JVal.num ((inferYearFromPath "x2024.json").getD 0)),
          ("version", JVal.num 2)]),
        ("daily", JVal.obj (([("meta", JVal.other),
          ("daily", JVal.obj [("2024-01-01", JVal.num 1)])]).filter
            (fun kv => matchesDateKey kv.1))),
        ("hourly", JVal.obj [])] ∧
    appendLoadStored (JVal.obj [("meta", JVal.other),
        ("daily", JVal.obj [("2024-01-01", JVal.num 1)])]) "x2024.json" =
      some (JVal.obj ([("meta", JVal.other),
        ("daily", JVal.obj [("2024-01-01", JVal.num 1)])] ++
          [("hourly", JVal.obj [])])) :=
  ⟨by decide,
   (clio_load_drops_daily_append_load_keeps_it
     [("meta", JVal.other), ("daily", JVal.obj [("2024-01-01", JVal.num 1)])]
     "x2024.json" JVal.other (JVal.obj [("2024-01-01", JVal.num 1)])
     (by decide) rfl rfl rfl).1,
   (clio_load_drops_daily_append_load_keeps_it
     [("meta", JVal.other), ("daily", JVal.obj [("2024-01-01", JVal.num 1)])]
     "x2024.json" JVal.other (JVal.obj [("2024-01-01", JVal.num 1)])
     (by decide) rfl rfl rfl).2.2.1⟩

end XrplDateCache
